import Mathlib

/-!
Verification of the Miniscript subsystem of the `script_descriptor` crate
(`src/parse.rs`, `src/lib.rs`) against its natural-language specification.

The development is a shallow embedding of `parse.rs`:

* Public keys, hash160 and sha256 values are abstracted to `Nat` identifiers.
  The script-level byte image of a key (`pk.serialize()`, 33 bytes) and of a
  sha256 preimage (`[u8; 32]`, 32 bytes) are modelled by padding the
  identifier's little-endian byte expansion to the fixed width, so witness
  push lengths (and hence `satisfy_cost`) match the source.
* Signatures (`sig.serialize_der()`) are arbitrary byte strings `List Nat`.
* `HashMap` arguments of the satisfier become total functions into `Option`.
* Scripts are modelled at the token boundary: the spec declares the
  script byte encoding an external bit-exact format, and `lex` is the only
  code touching it.  `lex` is embedded over the external decoder's
  instruction stream; the AST serializers are embedded as token emitters
  (one token per `Builder` push, exactly as `lex` would tokenize the
  emitted bytes).  `read_scriptint` / `Builder::push_int` (rust-bitcoin,
  external) are modelled bit-exactly below.
* Rust `panic!` / `unreachable!` / `unimplemented!` in the compiler become
  `Option.none`; `f64` weights are modelled by exact rational arithmetic,
  with each weight comparison performed at the common denominator of the
  probability (an `Int` cross-multiplication).  All concrete inputs used in
  theorems keep every probability dyadic with small numerators, where the
  source's `f64` computation is exact, so the comparisons agree bit-for-bit.
* The reverse parser is embedded with an explicit fuel parameter (the Rust
  recursion consumes at least one token between nested calls, so any fuel
  larger than twice the token count is adequate; entry points pass that).
-/

namespace Miniscript

/-! ## Byte-level external helpers (rust-bitcoin boundary) -/

/-- Little-endian byte expansion of a natural number (empty for 0), fuel-driven
so that it reduces definitionally. -/
def natBytesLEAux : Nat → Nat → List Nat
  | 0, _ => []
  | fuel+1, n => if n = 0 then [] else n % 256 :: natBytesLEAux fuel (n / 256)

def natBytesLE (n : Nat) : List Nat :=
  natBytesLEAux n n

/-- The 33-byte script image of a public key (`pk.serialize()`), modelled by
padding the identifier to 33 bytes. -/
def pk_serialize (pk : Nat) : List Nat :=
  natBytesLE pk ++ List.replicate (33 - (natBytesLE pk).length) 0

/-- The 32-byte image of a sha256 preimage (`[u8; 32]`). -/
def preimage_bytes (pre : Nat) : List Nat :=
  natBytesLE pre ++ List.replicate (32 - (natBytesLE pre).length) 0

/-- Errors of the external script instruction decoder (`bitcoin::blockdata::script::Error`). -/
inductive ScriptError where
  | numericOverflow
  | decode (code : Nat)
  deriving DecidableEq

/-- rust-bitcoin `read_scriptint`: at most 4 bytes, little-endian
sign-and-magnitude with the sign in the top bit of the last byte. -/
def read_scriptint (bs : List Nat) : Except ScriptError Int :=
  if 4 < bs.length then .error .numericOverflow
  else
    match bs with
    | [] => .ok 0
    | _ :: _ =>
      let lst := bs.getLast?.getD 0
      let mag : Nat := (bs.dropLast.reverse.foldl (fun acc b => acc * 256 + b) 0) +
        (lst % 128) * 256 ^ (bs.length - 1)
      if 128 ≤ lst then .ok (-(mag : Int)) else .ok (mag : Int)

/-- rust-bitcoin `Builder::push_int`: whole script bytes of a minimal integer
push (`OP_0`, `OP_1NEGATE`, `OP_PUSHNUM_1..16`, else length-prefixed minimal
sign-and-magnitude data). -/
def push_int (v : Int) : List Nat :=
  if v = 0 then [0x00]
  else if v = -1 then [0x4f]
  else if 1 ≤ v ∧ v ≤ 16 then [0x50 + v.toNat]
  else
    let base := natBytesLE v.natAbs
    let lastB := base.getLast?.getD 0
    let data :=
      if 128 ≤ lastB then base ++ [if v < 0 then 0x80 else 0x00]
      else if v < 0 then base.dropLast ++ [lastB + 0x80] else base
    data.length :: data

/-! ## Tokens and the lexer -/

/-- Atom of a tokenized version of a script (source `Token`); `If`/`Else`
are renamed `opIf`/`opElse` for Lean. -/
inductive Token where
  | boolAnd
  | boolOr
  | add
  | equal
  | equalVerify
  | checkSig
  | checkSigVerify
  | checkMultiSig
  | checkMultiSigVerify
  | csv
  | fromAltStack
  | toAltStack
  | drop
  | dup
  | opIf
  | ifDup
  | notIf
  | opElse
  | endIf
  | size
  | swap
  | tuck
  | verify
  | hash160
  | sha256
  | number (n : Nat)
  | hash160Hash (h : Nat)
  | sha256Hash (h : Nat)
  | pubkey (pk : Nat)
  deriving DecidableEq

/-- The taxonomy of `super::Error` (the `String` payload of `Unexpected` is
modelled by the offending token sequence; the textual-descriptor variants
`Unprintable`/`ExpectedChar` are unused by this subsystem and omitted). -/
inductive Error where
  | invalidOpcode (op : Nat)
  | invalidPush (bytes : List Nat)
  | script (e : ScriptError)
  | unexpectedStart
  | unexpected (toks : List Token)
  | badPubkey (bytes : List Nat)
  | missingHash (h : Nat)
  | missingSig (pk : Nat)
  | missingPubkey (h : Nat)
  | locktimeNotMet (n : Nat)
  | couldNotSatisfy
  deriving DecidableEq

instance {ε α : Type} [DecidableEq ε] [DecidableEq α] : DecidableEq (Except ε α) := fun a b =>
  match a, b with
  | .ok x, .ok y => if h : x = y then isTrue (by rw [h]) else isFalse (by simp [h])
  | .error e, .error f => if h : e = f then isTrue (by rw [h]) else isFalse (by simp [h])
  | .ok _, .error _ => isFalse (by simp)
  | .error _, .ok _ => isFalse (by simp)

/-- An instruction of the external script decoder: an opcode byte, a push, or
a decoder error (`script::Instruction`). -/
inductive Instruction where
  | op (opcode : Nat)
  | pushBytes (bytes : List Nat)
  | decodeErr (e : ScriptError)
  deriving DecidableEq

/-- External secp256k1 validity of a 33-byte pubkey push, modelled as the
compressed-prefix check (the claims never depend on which pushes are valid). -/
def valid_pubkey : List Nat → Bool
  | 2 :: _ => true
  | 3 :: _ => true
  | _ => false

/-- Identifier carried by a hash/pubkey push: little-endian byte fold. -/
def push_ident (bs : List Nat) : Nat :=
  bs.reverse.foldl (fun acc b => acc * 256 + b) 0

/-- Tokenize a single instruction (the body of the `for ins in script` loop of
`lex`). -/
def lex_instruction (ins : Instruction) : Except Error Token :=
  match ins with
  | .decodeErr e => .error (.script e)
  | .op o =>
    match o with
    | 0x9a => .ok .boolAnd
    | 0x9b => .ok .boolOr
    | 0x87 => .ok .equal
    | 0x88 => .ok .equalVerify
    | 0xac => .ok .checkSig
    | 0xad => .ok .checkSigVerify
    | 0xae => .ok .checkMultiSig
    | 0xaf => .ok .checkMultiSigVerify
    | 0xb2 => .ok .csv
    | 0x6c => .ok .fromAltStack
    | 0x6b => .ok .toAltStack
    | 0x75 => .ok .drop
    | 0x76 => .ok .dup
    | 0x63 => .ok .opIf
    | 0x73 => .ok .ifDup
    | 0x64 => .ok .notIf
    | 0x67 => .ok .opElse
    | 0x68 => .ok .endIf
    | 0x82 => .ok .size
    | 0x7c => .ok .swap
    | 0x7d => .ok .tuck
    | 0x69 => .ok .verify
    | 0xa9 => .ok .hash160
    | 0xa8 => .ok .sha256
    | 0x00 => .ok (.number 0)
    | 0x51 => .ok (.number 1)
    | 0x52 => .ok (.number 2)
    | 0x53 => .ok (.number 3)
    | 0x54 => .ok (.number 4)
    | 0x55 => .ok (.number 5)
    | 0x56 => .ok (.number 6)
    | 0x57 => .ok (.number 7)
    | 0x58 => .ok (.number 8)
    | 0x59 => .ok (.number 9)
    | 0x5a => .ok (.number 10)
    | 0x5b => .ok (.number 11)
    | 0x5c => .ok (.number 12)
    | 0x5d => .ok (.number 13)
    | 0x5e => .ok (.number 14)
    | 0x5f => .ok (.number 15)
    | 0x60 => .ok (.number 16)
    | op => .error (.invalidOpcode op)
  | .pushBytes bytes =>
    if bytes.length = 20 then .ok (.hash160Hash (push_ident bytes))
    else if bytes.length = 32 then .ok (.sha256Hash (push_ident bytes))
    else if bytes.length = 33 then
      (if valid_pubkey bytes then .ok (.pubkey (push_ident bytes))
       else .error (.badPubkey bytes))
    else
      match read_scriptint bytes with
      | .ok v =>
        if 0 ≤ v then
          if (push_int v).drop 1 ≠ bytes then .error (.invalidPush bytes)
          else .ok (.number v.toNat)
        else .error (.invalidPush bytes)
      | .error e => .error (.script e)

/-- Tokenize a script (source `lex`): first failing instruction aborts. -/
def lex : List Instruction → Except Error (List Token)
  | [] => .ok []
  | ins :: rest => do
    let tok ← lex_instruction ins
    let toks ← lex rest
    .ok (tok :: toks)

/-! ## The typed Miniscript AST

Five mutually recursive variant sets; `Vec<W>` children of `Threshold` become
the mutually defined list type `WList`. -/

mutual

/-- Expression that may be satisfied or dissatisfied (source `E`). -/
inductive E where
  | checkSig (pk : Nat)
  | checkSigHash (h : Nat)
  | checkSigHashF (h : Nat)
  | checkMultiSig (k : Nat) (keys : List Nat)
  | checkMultiSigF (k : Nat) (keys : List Nat)
  | hashEqual (h : Nat)
  | threshold (k : Nat) (sube : E) (subw : WList)
  | parallelAnd (l : E) (r : W)
  | cascadeAnd (l : E) (r : F)
  | parallelOr (l : E) (r : W)
  | cascadeOr (l : E) (r : E)
  | castF (f : F)
  deriving DecidableEq

/-- Wrapped expression (source `W`). -/
inductive W where
  | checkSig (pk : Nat)
  | hashEqual (h : Nat)
  | csv (n : Nat)
  | castE (e : E)
  deriving DecidableEq

/-- A `Vec<W>` of threshold children. -/
inductive WList where
  | nil
  | cons (hd : W) (tl : WList)
  deriving DecidableEq

/-- Expression that must succeed and leaves 1 (source `F`). -/
inductive F where
  | checkSig (pk : Nat)
  | checkMultiSig (k : Nat) (keys : List Nat)
  | checkSigHash (h : Nat)
  | csv (n : Nat)
  | hashEqual (h : Nat)
  | threshold (k : Nat) (sube : E) (subw : WList)
  | and (l : V) (r : F)
  | parallelOr (l : E) (r : W)
  | switchOr (l : F) (r : F)
  | switchOrV (l : V) (r : V)
  | cascadeOr (l : E) (r : F)
  | cascadeOrV (l : E) (r : V)
  deriving DecidableEq

/-- Expression that must succeed and leaves nothing (source `V`). -/
inductive V where
  | checkSig (pk : Nat)
  | checkMultiSig (k : Nat) (keys : List Nat)
  | checkSigHash (h : Nat)
  | csv (n : Nat)
  | hashEqual (h : Nat)
  | threshold (k : Nat) (sube : E) (subw : WList)
  | and (l : V) (r : V)
  | parallelOr (l : E) (r : W)
  | switchOr (l : V) (r : V)
  | switchOrT (l : T) (r : T)
  | cascadeOr (l : E) (r : V)
  deriving DecidableEq

/-- Top-level expression (source `T`). -/
inductive T where
  | hashEqual (h : Nat)
  | and (l : V) (r : T)
  | switchOr (l : T) (r : T)
  | cascadeOr (l : E) (r : T)
  | castE (e : E)
  | castF (f : F)
  deriving DecidableEq

end

/-- Top-level script AST type (source `ParseTree`), a handle owning a root `T`. -/
structure ParseTree where
  top : T
  deriving DecidableEq

def WList.toList : WList → List W
  | .nil => []
  | .cons w tl => w :: tl.toList

def WList.ofList : List W → WList
  | [] => .nil
  | w :: tl => .cons w (WList.ofList tl)

/-! ## The satisfier -/

/-- A signature map `pk → sig` (`HashMap<PublicKey, Signature>`); the
signature is its DER byte string. -/
abbrev KeyMap : Type := Nat → Option (List Nat)

/-- A pubkey-hash map `hash160 → pk` (`HashMap<Hash160, PublicKey>`). -/
abbrev PkhMap : Type := Nat → Option Nat

/-- A preimage map `sha256 → [u8; 32]` (`HashMap<Sha256dHash, [u8; 32]>`). -/
abbrev PreimageMap : Type := Nat → Option Nat

/-- A witness stack: a sequence of byte pushes, bottom-first. -/
abbrev Witness : Type := List (List Nat)

/-- Computes witness size, assuming individual pushes are less than 254 bytes
(source `satisfy_cost`). -/
def satisfy_cost (s : Witness) : Nat :=
  (s.map (fun p => 1 + p.length)).sum

/-- Helper producing a checksig(verify) satisfaction. -/
def satisfy_checksig (pk : Nat) (key_map : KeyMap) : Except Error Witness :=
  match key_map pk with
  | some sig => .ok [sig]
  | none => .error (.missingSig pk)

/-- Helper producing a checksig(verify)hash satisfaction. -/
def satisfy_checksighash (hash : Nat) (key_map : KeyMap) (pkh_map : PkhMap) :
    Except Error Witness :=
  match pkh_map hash with
  | some pk =>
    match key_map pk with
    | some sig => .ok [sig, pk_serialize pk]
    | none => .error (.missingSig pk)
  | none => .error (.missingPubkey hash)

/-- Index of the last longest push (Rust `Iterator::max_by_key` returns the
last maximal element). -/
def max_len_idx (l : Witness) : Nat :=
  (l.enum.foldl (fun best p => if best.2 ≤ p.2.length then (p.1, p.2.length) else best)
    (0, 0)).1

/-- The signature-collection loop of `satisfy_checkmultisig`: take available
signatures in key order, dropping the longest whenever more than `k` are held. -/
def cms_loop (key_map : KeyMap) (k : Nat) : List Nat → Witness → Witness
  | [], ret => ret
  | pk :: rest, ret =>
    match key_map pk with
    | none => cms_loop key_map k rest ret
    | some sig =>
      let ret2 := ret ++ [sig]
      let ret3 := if k < ret2.length then ret2.eraseIdx (max_len_idx ret2) else ret2
      cms_loop key_map k rest ret3

/-- Helper producing a checkmultisig(verify) satisfaction. -/
def satisfy_checkmultisig (k : Nat) (keys : List Nat) (key_map : KeyMap) :
    Except Error Witness :=
  let ret := cms_loop key_map k keys []
  if ret.length = k then .ok (ret ++ [[]]) else .error .couldNotSatisfy

def satisfy_hashequal (hash : Nat) (hash_map : PreimageMap) : Except Error Witness :=
  match hash_map hash with
  | some pre => .ok [preimage_bytes pre]
  | none => .error (.missingHash hash)

def satisfy_csv (n : Nat) (age : Nat) : Except Error Witness :=
  if n ≤ age then .ok [] else .error (.locktimeNotMet n)

/-- Source `satisfy_threshold`, abstracted over the already-computed child
results (the source calls `satisfy` on each child; the callers below pass
exactly those calls).  `k = 0` returns an empty witness immediately;
otherwise the successful children are collected in child order, the indices
are stably sorted by witness cost (Rust `sort_by_key` is stable), and the
`k` cheapest satisfactions are concatenated. -/
def satisfy_threshold (k : Nat) (esat : Except Error Witness)
    (wsats : List (Except Error Witness)) : Except Error Witness :=
  if k = 0 then .ok []
  else
    let satisfactions := esat.toOption.toList ++ wsats.filterMap Except.toOption
    if satisfactions.length < k then .error .couldNotSatisfy
    else
      let indices := (List.range satisfactions.length).insertionSort
        (fun i j => satisfy_cost (satisfactions.getD i []) ≤ satisfy_cost (satisfactions.getD j []))
      .ok (((indices.take k).map (fun i => satisfactions.getD i [])).flatten)

/-- Source `satisfy_parallel_or`, abstracted over the child satisfaction and
dissatisfaction results (all four are pure; the source computes the
dissatisfactions lazily via `?` in exactly the branches below). -/
def satisfy_parallel_or (lsat rsat ldissat rdissat : Except Error Witness) :
    Except Error Witness :=
  match lsat, rsat with
  | .ok l, .error _ => do
    let rd ← rdissat
    .ok (l ++ rd)
  | .error _, .ok r => do
    let ld ← ldissat
    .ok (ld ++ r)
  | .error e, .error _ => .error e
  | .ok l, .ok r => do
    let ld ← ldissat
    let rd ← rdissat
    if satisfy_cost l + satisfy_cost rd ≤ satisfy_cost r + satisfy_cost ld then
      .ok (l ++ rd)
    else
      .ok (ld ++ r)

/-- Source `satisfy_switch_or` over the child satisfaction results. -/
def satisfy_switch_or (lsat rsat : Except Error Witness) : Except Error Witness :=
  match lsat, rsat with
  | .error e, .error _ => .error e
  | .ok l, .error _ => .ok (l ++ [[1]])
  | .error _, .ok r => .ok (r ++ [[]])
  | .ok l, .ok r =>
    if satisfy_cost l + 2 ≤ satisfy_cost r + 1 then .ok (l ++ [[1]]) else .ok (r ++ [[]])

/-- Source `satisfy_cascade_or` over the child results (`left` is always an `E`;
its dissatisfaction is computed in exactly the branches below). -/
def satisfy_cascade_or (lsat rsat ldissat : Except Error Witness) : Except Error Witness :=
  match lsat, rsat with
  | .error e, .error _ => .error e
  | .ok l, .error _ => .ok l
  | .error _, .ok r => do
    let ld ← ldissat
    .ok (ld ++ r)
  | .ok l, .ok r => do
    let ld ← ldissat
    if satisfy_cost l ≤ satisfy_cost r + satisfy_cost ld then .ok l else .ok (ld ++ r)

mutual

/-- Dissatisfier for `E` (source `E::dissatisfy`). -/
def E.dissatisfy : E → PkhMap → Except Error Witness
  | .checkSig _, _ => .ok [[]]
  | .checkSigHash h, pm =>
    (match pm h with
     | some pk => .ok [[], pk_serialize pk]
     | none => .error (.missingPubkey h))
  | .checkSigHashF h, pm =>
    (match pm h with
     | some pk => .ok [[], pk_serialize pk]
     | none => .error (.missingPubkey h))
  | .checkMultiSig k _, _ => .ok (List.replicate (k + 1) [])
  | .checkMultiSigF k _, _ => .ok (List.replicate (k + 1) [])
  | .hashEqual _, _ => .ok [[]]
  | .threshold _ sube subw, pm => do
    let r ← sube.dissatisfy pm
    let rs ← subw.dissatisfyAll pm
    .ok (r ++ rs)
  | .parallelAnd l r, pm => do
    let a ← l.dissatisfy pm
    let b ← r.dissatisfy pm
    .ok (a ++ b)
  | .cascadeAnd l _, pm => l.dissatisfy pm
  | .cascadeOr l r, pm => do
    let a ← l.dissatisfy pm
    let b ← r.dissatisfy pm
    .ok (a ++ b)
  | .parallelOr l r, pm => do
    let a ← l.dissatisfy pm
    let b ← r.dissatisfy pm
    .ok (a ++ b)
  | .castF _, _ => .ok []

/-- Dissatisfier for `W` (source `W::dissatisfy`). -/
def W.dissatisfy : W → PkhMap → Except Error Witness
  | .checkSig _, _ => .ok []
  | .hashEqual _, _ => .ok []
  | .csv _, _ => .ok []
  | .castE e, pm => e.dissatisfy pm

/-- Sequential dissatisfaction of a `Vec<W>` with early error. -/
def WList.dissatisfyAll : WList → PkhMap → Except Error Witness
  | .nil, _ => .ok []
  | .cons w tl, pm => do
    let d ← w.dissatisfy pm
    let ds ← tl.dissatisfyAll pm
    .ok (d ++ ds)

end

mutual

/-- Satisfier for `E` (source `impl AstElem for E`, `fn satisfy`). -/
def E.satisfy : E → KeyMap → PkhMap → PreimageMap → Nat → Except Error Witness
  | .checkSig pk, km, _, _, _ => satisfy_checksig pk km
  | .checkSigHash h, km, pm, _, _ => satisfy_checksighash h km pm
  | .checkSigHashF h, km, pm, _, _ => satisfy_checksighash h km pm
  | .checkMultiSig k keys, km, _, _, _ => satisfy_checkmultisig k keys km
  | .checkMultiSigF k keys, km, _, _, _ => satisfy_checkmultisig k keys km
  | .hashEqual h, _, _, hm, _ => satisfy_hashequal h hm
  | .threshold k sube subw, km, pm, hm, age =>
    satisfy_threshold k (sube.satisfy km pm hm age) (subw.satisfyEach km pm hm age)
  | .parallelAnd l r, km, pm, hm, age => do
    let a ← l.satisfy km pm hm age
    let b ← r.satisfy km pm hm age
    .ok (a ++ b)
  | .cascadeAnd l r, km, pm, hm, age => do
    let a ← l.satisfy km pm hm age
    let b ← r.satisfy km pm hm age
    .ok (a ++ b)
  | .parallelOr l r, km, pm, hm, age =>
    satisfy_parallel_or (l.satisfy km pm hm age) (r.satisfy km pm hm age)
      (l.dissatisfy pm) (r.dissatisfy pm)
  | .cascadeOr l r, km, pm, hm, age =>
    satisfy_cascade_or (l.satisfy km pm hm age) (r.satisfy km pm hm age) (l.dissatisfy pm)
  | .castF f, km, pm, hm, age => do
    let fsat ← f.satisfy km pm hm age
    .ok (fsat ++ [[1]])

/-- Satisfier for `W`. -/
def W.satisfy : W → KeyMap → PkhMap → PreimageMap → Nat → Except Error Witness
  | .checkSig pk, km, _, _, _ => satisfy_checksig pk km
  | .hashEqual h, _, _, hm, _ => satisfy_hashequal h hm
  | .csv n, _, _, _, age => (satisfy_csv n age).map (fun _ => [[1]])
  | .castE e, km, pm, hm, age => e.satisfy km pm hm age

/-- The child-by-child satisfaction attempts of a threshold's `Vec<W>`. -/
def WList.satisfyEach : WList → KeyMap → PkhMap → PreimageMap → Nat →
    List (Except Error Witness)
  | .nil, _, _, _, _ => []
  | .cons w tl, km, pm, hm, age => w.satisfy km pm hm age :: tl.satisfyEach km pm hm age

/-- Satisfier for `F`. -/
def F.satisfy : F → KeyMap → PkhMap → PreimageMap → Nat → Except Error Witness
  | .checkSig pk, km, _, _, _ => satisfy_checksig pk km
  | .checkMultiSig k keys, km, _, _, _ => satisfy_checkmultisig k keys km
  | .checkSigHash h, km, pm, _, _ => satisfy_checksighash h km pm
  | .csv n, _, _, _, age => satisfy_csv n age
  | .hashEqual h, _, _, hm, _ => satisfy_hashequal h hm
  | .threshold k sube subw, km, pm, hm, age =>
    satisfy_threshold k (sube.satisfy km pm hm age) (subw.satisfyEach km pm hm age)
  | .and l r, km, pm, hm, age => do
    let a ← l.satisfy km pm hm age
    let b ← r.satisfy km pm hm age
    .ok (a ++ b)
  | .parallelOr l r, km, pm, hm, age =>
    satisfy_parallel_or (l.satisfy km pm hm age) (r.satisfy km pm hm age)
      (l.dissatisfy pm) (r.dissatisfy pm)
  | .switchOr l r, km, pm, hm, age =>
    satisfy_switch_or (l.satisfy km pm hm age) (r.satisfy km pm hm age)
  | .switchOrV l r, km, pm, hm, age =>
    satisfy_switch_or (l.satisfy km pm hm age) (r.satisfy km pm hm age)
  | .cascadeOr l r, km, pm, hm, age =>
    satisfy_cascade_or (l.satisfy km pm hm age) (r.satisfy km pm hm age) (l.dissatisfy pm)
  | .cascadeOrV l r, km, pm, hm, age =>
    satisfy_cascade_or (l.satisfy km pm hm age) (r.satisfy km pm hm age) (l.dissatisfy pm)

/-- Satisfier for `V`. -/
def V.satisfy : V → KeyMap → PkhMap → PreimageMap → Nat → Except Error Witness
  | .checkSig pk, km, _, _, _ => satisfy_checksig pk km
  | .checkMultiSig k keys, km, _, _, _ => satisfy_checkmultisig k keys km
  | .checkSigHash h, km, pm, _, _ => satisfy_checksighash h km pm
  | .csv n, _, _, _, age => satisfy_csv n age
  | .hashEqual h, _, _, hm, _ => satisfy_hashequal h hm
  | .threshold k sube subw, km, pm, hm, age =>
    satisfy_threshold k (sube.satisfy km pm hm age) (subw.satisfyEach km pm hm age)
  | .and l r, km, pm, hm, age => do
    let a ← l.satisfy km pm hm age
    let b ← r.satisfy km pm hm age
    .ok (a ++ b)
  | .parallelOr l r, km, pm, hm, age =>
    satisfy_parallel_or (l.satisfy km pm hm age) (r.satisfy km pm hm age)
      (l.dissatisfy pm) (r.dissatisfy pm)
  | .switchOr l r, km, pm, hm, age =>
    satisfy_switch_or (l.satisfy km pm hm age) (r.satisfy km pm hm age)
  | .switchOrT l r, km, pm, hm, age =>
    satisfy_switch_or (l.satisfy km pm hm age) (r.satisfy km pm hm age)
  | .cascadeOr l r, km, pm, hm, age =>
    satisfy_cascade_or (l.satisfy km pm hm age) (r.satisfy km pm hm age) (l.dissatisfy pm)

/-- Satisfier for `T`. -/
def T.satisfy : T → KeyMap → PkhMap → PreimageMap → Nat → Except Error Witness
  | .hashEqual h, _, _, hm, _ => satisfy_hashequal h hm
  | .and l r, km, pm, hm, age => do
    let a ← l.satisfy km pm hm age
    let b ← r.satisfy km pm hm age
    .ok (a ++ b)
  | .switchOr l r, km, pm, hm, age =>
    satisfy_switch_or (l.satisfy km pm hm age) (r.satisfy km pm hm age)
  | .cascadeOr l r, km, pm, hm, age =>
    satisfy_cascade_or (l.satisfy km pm hm age) (r.satisfy km pm hm age) (l.dissatisfy pm)
  | .castE e, km, pm, hm, age => e.satisfy km pm hm age
  | .castF f, km, pm, hm, age => f.satisfy km pm hm age

end

mutual

/-- Source `E::required_keys`. -/
def E.required_keys : E → List Nat
  | .checkSig pk => [pk]
  | .checkSigHash _ => []
  | .checkSigHashF _ => []
  | .hashEqual _ => []
  | .checkMultiSig _ keys => keys
  | .checkMultiSigF _ keys => keys
  | .threshold _ sube subw => sube.required_keys ++ subw.requiredKeysAll
  | .parallelAnd l r => l.required_keys ++ r.required_keys
  | .cascadeAnd l r => l.required_keys ++ r.required_keys
  | .parallelOr l r => l.required_keys ++ r.required_keys
  | .cascadeOr l r => l.required_keys ++ r.required_keys
  | .castF f => f.required_keys

def W.required_keys : W → List Nat
  | .checkSig pk => [pk]
  | .hashEqual _ => []
  | .csv _ => []
  | .castE e => e.required_keys

def WList.requiredKeysAll : WList → List Nat
  | .nil => []
  | .cons w tl => w.required_keys ++ tl.requiredKeysAll

def F.required_keys : F → List Nat
  | .checkSig pk => [pk]
  | .checkMultiSig _ keys => keys
  | .checkSigHash _ => []
  | .csv _ => []
  | .hashEqual _ => []
  | .threshold _ sube subw => sube.required_keys ++ subw.requiredKeysAll
  | .and l r => l.required_keys ++ r.required_keys
  | .parallelOr l r => l.required_keys ++ r.required_keys
  | .switchOr l r => l.required_keys ++ r.required_keys
  | .switchOrV l r => l.required_keys ++ r.required_keys
  | .cascadeOr l r => l.required_keys ++ r.required_keys
  | .cascadeOrV l r => l.required_keys ++ r.required_keys

def V.required_keys : V → List Nat
  | .checkSig pk => [pk]
  | .checkMultiSig _ keys => keys
  | .checkSigHash _ => []
  | .csv _ => []
  | .hashEqual _ => []
  | .threshold _ sube subw => sube.required_keys ++ subw.requiredKeysAll
  | .and l r => l.required_keys ++ r.required_keys
  | .parallelOr l r => l.required_keys ++ r.required_keys
  | .switchOr l r => l.required_keys ++ r.required_keys
  | .switchOrT l r => l.required_keys ++ r.required_keys
  | .cascadeOr l r => l.required_keys ++ r.required_keys

def T.required_keys : T → List Nat
  | .hashEqual _ => []
  | .and l r => l.required_keys ++ r.required_keys
  | .switchOr l r => l.required_keys ++ r.required_keys
  | .cascadeOr l r => l.required_keys ++ r.required_keys
  | .castE e => e.required_keys
  | .castF f => f.required_keys

end

/-! ## Serialization

One token per `Builder` call, in emission order: by the external-format
contract, `lex` tokenizes the emitted byte script back to exactly this token
sequence (`push_int n` lexes to `Number n`, a 20/32/33-byte `push_slice` to
the corresponding hash/pubkey token). -/

mutual

/-- Source `impl AstElem for E`, `fn serialize`, at the token boundary. -/
def E.serialize : E → List Token
  | .checkSig pk => [.pubkey pk, .checkSig]
  | .checkSigHash h => [.dup, .hash160, .hash160Hash h, .equalVerify, .checkSig]
  | .checkSigHashF h =>
    [.size, .opIf, .dup, .hash160, .hash160Hash h, .equalVerify, .checkSigVerify,
     .number 1, .endIf]
  | .checkMultiSig k pks =>
    [Token.number k] ++ pks.map Token.pubkey ++ [.number pks.length, .checkMultiSig]
  | .checkMultiSigF k pks =>
    [Token.size, Token.opIf, Token.number k] ++ pks.map Token.pubkey ++
      [.number pks.length, .checkMultiSigVerify, .number 1, .endIf]
  | .hashEqual h =>
    [.size, .opIf, .size, .number 32, .equalVerify, .sha256, .sha256Hash h,
     .equalVerify, .number 1, .endIf]
  | .threshold k sube subw =>
    sube.serialize ++ subw.serializeAdds ++ [.number k, .equal]
  | .parallelAnd l r => l.serialize ++ r.serialize ++ [.boolAnd]
  | .cascadeAnd l r =>
    l.serialize ++ [.opIf] ++ r.serialize ++ [.opElse, .number 0, .endIf]
  | .cascadeOr l r => l.serialize ++ [.ifDup, .notIf] ++ r.serialize ++ [.endIf]
  | .parallelOr l r => l.serialize ++ r.serialize ++ [.boolOr]
  | .castF f =>
    [.size, .equalVerify, .opIf] ++ f.serialize ++ [.opElse, .number 0, .endIf]

def W.serialize : W → List Token
  | .checkSig pk => [.swap, .pubkey pk, .checkSig]
  | .hashEqual h =>
    [.swap, .size, .opIf, .size, .number 32, .equalVerify, .sha256, .sha256Hash h,
     .equalVerify, .number 1, .endIf]
  | .csv n =>
    [.swap, .size, .equalVerify, .opIf, .number n, .csv, .opElse, .number 0, .endIf]
  | .castE e => [Token.toAltStack] ++ e.serialize ++ [.fromAltStack]

/-- The `<W> ADD` repetitions inside a threshold serialization. -/
def WList.serializeAdds : WList → List Token
  | .nil => []
  | .cons w tl => w.serialize ++ [.add] ++ tl.serializeAdds

def F.serialize : F → List Token
  | .checkSig pk => [.pubkey pk, .checkSigVerify, .number 1]
  | .checkMultiSig k pks =>
    [Token.number k] ++ pks.map Token.pubkey ++
      [.number pks.length, .checkMultiSigVerify, .number 1]
  | .checkSigHash h =>
    [.dup, .hash160, .hash160Hash h, .equalVerify, .checkSigVerify, .number 1]
  | .csv n => [.number n, .csv]
  | .hashEqual h =>
    [.size, .number 32, .equal, .sha256, .sha256Hash h, .equalVerify, .number 1]
  | .threshold k sube subw =>
    sube.serialize ++ subw.serializeAdds ++ [.number k, .equalVerify, .number 1]
  | .and l r => l.serialize ++ r.serialize
  | .parallelOr l r => l.serialize ++ r.serialize ++ [.boolOr, .verify, .number 1]
  | .switchOr l r =>
    [.size, .equalVerify, .opIf] ++ l.serialize ++ [.opElse] ++ r.serialize ++ [.endIf]
  | .switchOrV l r =>
    [.size, .equalVerify, .opIf] ++ l.serialize ++ [.opElse] ++ r.serialize ++
      [.endIf, .number 1]
  | .cascadeOr l r => l.serialize ++ [.ifDup, .notIf] ++ r.serialize ++ [.endIf]
  | .cascadeOrV l r => l.serialize ++ [.notIf] ++ r.serialize ++ [.endIf, .number 1]

def V.serialize : V → List Token
  | .checkSig pk => [.pubkey pk, .checkSigVerify]
  | .checkMultiSig k pks =>
    [Token.number k] ++ pks.map Token.pubkey ++ [.number pks.length, .checkMultiSigVerify]
  | .checkSigHash h => [.dup, .hash160, .hash160Hash h, .equalVerify, .checkSigVerify]
  | .csv n => [.number n, .csv, .drop]
  | .hashEqual h =>
    [.size, .number 32, .equalVerify, .sha256, .sha256Hash h, .equalVerify]
  | .threshold k sube subw =>
    sube.serialize ++ subw.serializeAdds ++ [.number k, .equalVerify]
  | .and l r => l.serialize ++ r.serialize
  | .parallelOr l r => l.serialize ++ r.serialize ++ [.boolOr, .verify]
  | .switchOr l r =>
    [.size, .equalVerify, .opIf] ++ l.serialize ++ [.opElse] ++ r.serialize ++ [.endIf]
  | .switchOrT l r =>
    [.size, .equalVerify, .opIf] ++ l.serialize ++ [.opElse] ++ r.serialize ++
      [.endIf, .verify]
  | .cascadeOr l r => l.serialize ++ [.notIf] ++ r.serialize ++ [.endIf]

def T.serialize : T → List Token
  | .hashEqual h => [.size, .number 32, .equalVerify, .sha256, .sha256Hash h, .equal]
  | .and l r => l.serialize ++ r.serialize
  | .switchOr l r =>
    [.size, .equalVerify, .opIf] ++ l.serialize ++ [.opElse] ++ r.serialize ++ [.endIf]
  | .cascadeOr l r => l.serialize ++ [.ifDup, .notIf] ++ r.serialize ++ [.endIf]
  | .castE e => e.serialize
  | .castF f => f.serialize

end

/-- Serialize an AST into (token-level) script form. -/
def ParseTree.serialize (pt : ParseTree) : List Token :=
  pt.top.serialize

def ParseTree.satisfy (pt : ParseTree) (km : KeyMap) (pm : PkhMap) (hm : PreimageMap)
    (age : Nat) : Except Error Witness :=
  pt.top.satisfy km pm hm age

def ParseTree.required_keys (pt : ParseTree) : List Nat :=
  pt.top.required_keys

/-! ## The reverse parser

The source parser is a recursive descent over a `TokenIter` that pops tokens
from the end of the script; we model the iterator state as the reversed token
list (head = rightmost remaining token).  `Box<AstElem>` trait objects become
the sum `SubExpr`, whose constructors record exactly the `is_e/.../is_t`
dispatch flags of the source (`E` and `F` additionally answer `is_t`,
reflected where the source checks flags in order).  The Rust recursion has no
fuel; every nested call happens after at least one token has been consumed,
so any fuel exceeding twice the token count is adequate — the entry point
passes that, and fuel exhaustion (unreachable there) yields `UnexpectedStart`. -/

inductive SubExpr where
  | e (x : E)
  | w (x : W)
  | f (x : F)
  | v (x : V)
  | t (x : T)
  deriving DecidableEq

/-- The token sequence standing in for the `Display` string of a subexpression
(used only as the payload of `Unexpected`). -/
def SubExpr.display : SubExpr → List Token
  | .e x => x.serialize
  | .w x => x.serialize
  | .f x => x.serialize
  | .v x => x.serialize
  | .t x => x.serialize

/-- Source `into_t`: identities for `T`, the casts for `E`/`F`, and
`Unexpected` otherwise. -/
def SubExpr.asT : SubExpr → Except Error T
  | .e x => .ok (T.castE x)
  | .f x => .ok (T.castF x)
  | .t x => .ok x
  | s => .error (.unexpected s.display)

/-- Source `expect_token!` for a fixed expected token. -/
def expectTok (expected : Token) (ts : List Token) : Except Error (List Token) :=
  match ts with
  | [] => .error .unexpectedStart
  | tok :: rest => if tok = expected then .ok rest else .error (.unexpected [tok])

/-- Source `expect_token!(tokens, Token::Number(n) => { n })`. -/
def expectNumber (ts : List Token) : Except Error (Nat × List Token) :=
  match ts with
  | .number n :: rest => .ok (n, rest)
  | tok :: _ => .error (.unexpected [tok])
  | [] => .error .unexpectedStart

/-- The `for _ in 0..n { pks.push(expect_token!(Pubkey)) }` loop of the
`CheckMultiSig(Verify)` arms: read `n` pubkeys in pop order. -/
def parsePubkeys : Nat → List Token → Except Error (List Nat × List Token)
  | 0, ts => .ok ([], ts)
  | n+1, ts =>
    match ts with
    | .pubkey pk :: rest => do
      let (pks, rest2) ← parsePubkeys n rest
      .ok (pk :: pks, rest2)
    | tok :: _ => .error (.unexpected [tok])
    | [] => .error .unexpectedStart

set_option maxHeartbeats 3200000

mutual

/-- Source `parse_subexpression`: dispatch on the rightmost token, then (for a
resulting T/F/V — which in the source includes `E`, whose `is_t` is true) the
trailing `And`-concatenation step. -/
def parse_subexpression : Nat → List Token → Except Error (SubExpr × List Token)
  | 0, _ => .error .unexpectedStart
  | fuel+1, tokens => do
    let (ret, ts) ←
      (match tokens with
       | [] => .error .unexpectedStart
       | .boolAnd :: ts => do
         let (s1, ts) ← parse_subexpression fuel ts
         match s1 with
         | .w wexpr => do
           let (s2, ts) ← parse_subexpression fuel ts
           match s2 with
           | .e expr => .ok (SubExpr.e (E.parallelAnd expr wexpr), ts)
           | s => .error (.unexpected s.display)
         | s => .error (.unexpected s.display)
       | .boolOr :: ts => do
         let (s1, ts) ← parse_subexpression fuel ts
         match s1 with
         | .w wexpr => do
           let (s2, ts) ← parse_subexpression fuel ts
           match s2 with
           | .e expr => .ok (SubExpr.e (E.parallelOr expr wexpr), ts)
           | s => .error (.unexpected s.display)
         | s => .error (.unexpected s.display)
       | .equal :: ts =>
         (match ts with
          | .sha256Hash hash :: ts => do
            let ts ← expectTok .sha256 ts
            let ts ← expectTok .equalVerify ts
            let ts ← expectTok (.number 32) ts
            let ts ← expectTok .size ts
            .ok (SubExpr.t (T.hashEqual hash), ts)
          | .number k :: ts => do
            let (e0, ws, ts) ← parseThresholdE fuel ts
            .ok (SubExpr.e (E.threshold k e0 ws), ts)
          | tok :: _ => .error (.unexpected [tok])
          | [] => .error .unexpectedStart)
       | .equalVerify :: ts =>
         (match ts with
          | .sha256Hash hash :: ts => do
            let ts ← expectTok .sha256 ts
            let ts ← expectTok .equalVerify ts
            let ts ← expectTok (.number 32) ts
            let ts ← expectTok .size ts
            .ok (SubExpr.v (V.hashEqual hash), ts)
          | .number k :: ts => do
            let (e0, ws, ts) ← parseThresholdV fuel ts
            .ok (SubExpr.v (V.threshold k e0 ws), ts)
          | tok :: _ => .error (.unexpected [tok])
          | [] => .error .unexpectedStart)
       | .checkSig :: ts =>
         (match ts with
          | .equalVerify :: ts =>
            (match ts with
             | .hash160Hash hash :: ts => do
               let ts ← expectTok .hash160 ts
               let ts ← expectTok .dup ts
               .ok (SubExpr.e (E.checkSigHash hash), ts)
             | tok :: _ => .error (.unexpected [tok])
             | [] => .error .unexpectedStart)
          | .pubkey pk :: ts =>
            (match ts with
             | .swap :: ts => .ok (SubExpr.w (W.checkSig pk), ts)
             | _ => .ok (SubExpr.e (E.checkSig pk), ts))
          | tok :: _ => .error (.unexpected [tok])
          | [] => .error .unexpectedStart)
       | .checkSigVerify :: ts =>
         (match ts with
          | .equalVerify :: ts =>
            (match ts with
             | .hash160Hash hash :: ts => do
               let ts ← expectTok .hash160 ts
               let ts ← expectTok .dup ts
               .ok (SubExpr.v (V.checkSigHash hash), ts)
             | tok :: _ => .error (.unexpected [tok])
             | [] => .error .unexpectedStart)
          | .pubkey pk :: ts => .ok (SubExpr.v (V.checkSig pk), ts)
          | tok :: _ => .error (.unexpected [tok])
          | [] => .error .unexpectedStart)
       | .checkMultiSig :: ts => do
         let (n, ts) ← expectNumber ts
         let (pks, ts) ← parsePubkeys n ts
         let (k, ts) ← expectNumber ts
         .ok (SubExpr.e (E.checkMultiSig k pks.reverse), ts)
       | .checkMultiSigVerify :: ts => do
         let (n, ts) ← expectNumber ts
         let (pks, ts) ← parsePubkeys n ts
         let (k, ts) ← expectNumber ts
         .ok (SubExpr.v (V.checkMultiSig k pks.reverse), ts)
       | .csv :: ts =>
         (match ts with
          | .number n :: ts => .ok (SubExpr.f (F.csv n), ts)
          | tok :: _ => .error (.unexpected [tok])
          | [] => .error .unexpectedStart)
       | .fromAltStack :: ts => do
         let (s1, ts) ← parse_subexpression fuel ts
         match s1 with
         | .e expr => do
           let ts ← expectTok .toAltStack ts
           .ok (SubExpr.w (W.castE expr), ts)
         | s => .error (.unexpected s.display)
       | .drop :: ts => do
         let ts ← expectTok .csv ts
         match ts with
         | .number n :: ts => .ok (SubExpr.v (V.csv n), ts)
         | tok :: _ => .error (.unexpected [tok])
         | [] => .error .unexpectedStart
       | .endIf :: ts => parseEndIf fuel ts
       | .verify :: ts =>
         (match ts with
          | .endIf :: ts => do
            let (s1, ts) ← parse_subexpression fuel ts
            let right ← s1.asT
            let ts ← expectTok .opElse ts
            let (s2, ts) ← parse_subexpression fuel ts
            let left ← s2.asT
            let ts ← expectTok .opIf ts
            let ts ← expectTok .equalVerify ts
            let ts ← expectTok .size ts
            .ok (SubExpr.v (V.switchOrT left right), ts)
          | .boolOr :: ts => do
            let (s1, ts) ← parse_subexpression fuel ts
            match s1 with
            | .w wexpr => do
              let (s2, ts) ← parse_subexpression fuel ts
              match s2 with
              | .e expr => .ok (SubExpr.v (V.parallelOr expr wexpr), ts)
              | s => .error (.unexpected s.display)
            | s => .error (.unexpected s.display)
          | tok :: _ => .error (.unexpected [tok])
          | [] => .error .unexpectedStart)
       | .number 1 :: ts => do
         let (s1, ts) ← parse_subexpression fuel ts
         match s1 with
         | .v vexpr =>
           (match vexpr with
            | V.checkSig pk => .ok (SubExpr.f (F.checkSig pk), ts)
            | V.checkSigHash hash => .ok (SubExpr.f (F.checkSigHash hash), ts)
            | V.checkMultiSig k keys => .ok (SubExpr.f (F.checkMultiSig k keys), ts)
            | V.hashEqual hash => .ok (SubExpr.f (F.hashEqual hash), ts)
            | V.threshold k e0 ws => .ok (SubExpr.f (F.threshold k e0 ws), ts)
            | V.parallelOr left right => .ok (SubExpr.f (F.parallelOr left right), ts)
            | V.switchOr left right => .ok (SubExpr.f (F.switchOrV left right), ts)
            | V.cascadeOr left right => .ok (SubExpr.f (F.cascadeOrV left right), ts)
            | x => .error (.unexpected x.serialize))
         | s => .error (.unexpected s.display)
       | tok :: _ => .error (.unexpected [tok]))
    match ret with
    | .w _ => .ok (ret, ts)
    | _ =>
      match ts.head? with
      | none => .ok (ret, ts)
      | some .opIf => .ok (ret, ts)
      | some .notIf => .ok (ret, ts)
      | some .opElse => .ok (ret, ts)
      | some _ => do
        let (sub, ts2) ← parse_subexpression fuel ts
        match sub with
        | .v left =>
          (match ret with
           | .e x => .ok (SubExpr.t (T.and left (T.castE x)), ts2)
           | .f x => .ok (SubExpr.t (T.and left (T.castF x)), ts2)
           | .t x => .ok (SubExpr.t (T.and left x), ts2)
           | .v x => .ok (SubExpr.v (V.and left x), ts2)
           | .w _ => .error (.unexpected ret.display))
        | s => .error (.unexpected s.display)

/-- The `(W, Add)* E` loop of the `Equal`-suffix threshold arm. -/
def parseThresholdE : Nat → List Token → Except Error (E × WList × List Token)
  | 0, _ => .error .unexpectedStart
  | fuel+1, ts =>
    match ts with
    | .add :: ts => do
      let (sub, ts) ← parse_subexpression fuel ts
      match sub with
      | .w w0 => do
        let (e0, ws, ts) ← parseThresholdE fuel ts
        .ok (e0, .cons w0 ws, ts)
      | s => .error (.unexpected s.display)
    | [] => .error .unexpectedStart
    | _ => do
      let (sub, ts2) ← parse_subexpression fuel ts
      match sub with
      | .e e0 => .ok (e0, .nil, ts2)
      | s => .error (.unexpected s.display)

/-- The subexpression loop of the `EqualVerify`-suffix threshold arm (the
source reads W/E subexpressions with no intervening `Add`). -/
def parseThresholdV : Nat → List Token → Except Error (E × WList × List Token)
  | 0, _ => .error .unexpectedStart
  | fuel+1, ts => do
    let (sub, ts2) ← parse_subexpression fuel ts
    match sub with
    | .w w0 => do
      let (e0, ws, ts3) ← parseThresholdV fuel ts2
      .ok (e0, .cons w0 ws, ts3)
    | .e e0 => .ok (e0, .nil, ts2)
    | s => .error (.unexpected s.display)

/-- The `Token::EndIf` arm of `parse_subexpression`. -/
def parseEndIf : Nat → List Token → Except Error (SubExpr × List Token)
  | 0, _ => .error .unexpectedStart
  | fuel+1, ts =>
    match ts with
    | .number 0 :: rest =>
      (match rest with
       | .opElse :: ts2 => do
         let (sub, ts3) ← parse_subexpression fuel ts2
         match sub with
         | .f right =>
           (match ts3 with
            | .opIf :: ts4 =>
              (match ts4 with
               | .equalVerify :: ts5 => do
                 let ts6 ← expectTok .size ts5
                 match right with
                 | F.csv n =>
                   (match ts6 with
                    | .swap :: ts7 => .ok (SubExpr.w (W.csv n), ts7)
                    | _ => .ok (SubExpr.e (E.castF (F.csv n)), ts6))
                 | F.and a b => .ok (SubExpr.e (E.castF (F.and a b)), ts6)
                 | F.switchOr a b => .ok (SubExpr.e (E.castF (F.switchOr a b)), ts6)
                 | F.switchOrV a b => .ok (SubExpr.e (E.castF (F.switchOrV a b)), ts6)
                 | F.cascadeOr a b => .ok (SubExpr.e (E.castF (F.cascadeOr a b)), ts6)
                 | x => .error (.unexpected x.serialize)
               | _ => do
                 let (sub2, ts5) ← parse_subexpression fuel ts4
                 match sub2 with
                 | .e left => .ok (SubExpr.e (E.cascadeAnd left right), ts5)
                 | s => .error (.unexpected s.display))
            | tok :: _ => .error (.unexpected [tok])
            | [] => .error .unexpectedStart)
         | s => .error (.unexpected s.display)
       | tok :: _ => .error (.unexpected [tok])
       | [] => .error .unexpectedStart)
    | [] => .error .unexpectedStart
    | _ => do
      let (sub, ts2) ← parse_subexpression fuel ts
      match sub with
      | .e right =>
        (match ts2 with
         | .notIf :: ts3 => do
           let ts4 ← expectTok .ifDup ts3
           let (sub2, ts5) ← parse_subexpression fuel ts4
           match sub2 with
           | .e left => .ok (SubExpr.e (E.cascadeOr left right), ts5)
           | s => .error (.unexpected s.display)
         | tok :: _ => .error (.unexpected [tok])
         | [] => .error .unexpectedStart)
      | .f right =>
        (match ts2 with
         | .notIf :: ts3 => do
           let ts4 ← expectTok .ifDup ts3
           let (sub2, ts5) ← parse_subexpression fuel ts4
           match sub2 with
           | .e left => .ok (SubExpr.f (F.cascadeOr left right), ts5)
           | s => .error (.unexpected s.display)
         | .opIf :: ts3 => do
           let ts4 ← expectTok .size ts3
           match right with
           | F.checkSigHash hash => .ok (SubExpr.e (E.checkSigHashF hash), ts4)
           | F.checkMultiSig k pks => .ok (SubExpr.e (E.checkMultiSigF k pks), ts4)
           | F.hashEqual hash =>
             (match ts4 with
              | .swap :: ts5 => .ok (SubExpr.w (W.hashEqual hash), ts5)
              | _ => .ok (SubExpr.e (E.hashEqual hash), ts4))
           | x => .error (.unexpected x.serialize)
         | .opElse :: ts3 => do
           let (sub2, ts4) ← parse_subexpression fuel ts3
           match sub2 with
           | .f left => do
             let ts5 ← expectTok .opIf ts4
             let ts6 ← expectTok .equalVerify ts5
             let ts7 ← expectTok .size ts6
             .ok (SubExpr.f (F.switchOr left right), ts7)
           | s => .error (.unexpected s.display)
         | tok :: _ => .error (.unexpected [tok])
         | [] => .error .unexpectedStart)
      | .v right =>
        (match ts2 with
         | .opElse :: ts3 => do
           let (sub2, ts4) ← parse_subexpression fuel ts3
           match sub2 with
           | .v left => do
             let ts5 ← expectTok .opIf ts4
             let ts6 ← expectTok .equalVerify ts5
             let ts7 ← expectTok .size ts6
             .ok (SubExpr.v (V.switchOr left right), ts7)
           | s => .error (.unexpected s.display)
         | .notIf :: ts3 => do
           let (sub2, ts4) ← parse_subexpression fuel ts3
           match sub2 with
           | .e left => .ok (SubExpr.v (V.cascadeOr left right), ts4)
           | s => .error (.unexpected s.display)
         | tok :: _ => .error (.unexpected [tok])
         | [] => .error .unexpectedStart)
      | .t right =>
        (match ts2 with
         | .opElse :: ts3 => do
           let (sub2, ts4) ← parse_subexpression fuel ts3
           let left ← sub2.asT
           let ts5 ← expectTok .opIf ts4
           let ts6 ← expectTok .equalVerify ts5
           let ts7 ← expectTok .size ts6
           .ok (SubExpr.t (T.switchOr left right), ts7)
         | .notIf :: ts3 => do
           let ts4 ← expectTok .ifDup ts3
           let (sub2, ts5) ← parse_subexpression fuel ts4
           match sub2 with
           | .e left => .ok (SubExpr.t (T.cascadeOr left right), ts5)
           | s => .error (.unexpected s.display)
         | tok :: _ => .error (.unexpected [tok])
         | [] => .error .unexpectedStart)
      | .w _ => .error (.unexpected sub.display)

end

set_option maxHeartbeats 800000

/-- Source `ParseTree::parse`, from the token level on: reverse the token list
(the `TokenIter` pops from the end), parse one subexpression, coerce to `T`,
and require the iterator exhausted. -/
def ParseTree.parse (tokens : List Token) : Except Error ParseTree := do
  let (sub, rest) ← parse_subexpression (2 * tokens.length + 2) tokens.reverse
  let top ← sub.asT
  match rest with
  | [] => .ok ⟨top⟩
  | leading :: _ => .error (.unexpected [leading])

/-- Source `ParseTree::parse` from raw instructions: `lex`, then parse. -/
def ParseTree.parseScript (ins : List Instruction) : Except Error ParseTree := do
  let toks ← lex ins
  ParseTree.parse toks

/-! ## Descriptors and the cost-minimizing compiler

`Descriptor` is the policy input of the compiler (its variant shapes are fixed
by the exhaustive matches of `parse.rs`); `Vec<Descriptor>` under `Threshold`
becomes the mutually defined `DescList`.  Rust `panic!` / `unreachable!` /
`unimplemented!` are modelled as `none`; the source's strict evaluation means
a panic anywhere in a rule list aborts the whole call, which the `do`-binds
below reproduce.  `f64` probabilities are carried as exact fractions and every
weight comparison is performed at the common denominator (`Int`
cross-multiplication); the `from_descriptor` recursion is not structural (it
passes the same descriptor between types), so it carries fuel, with `none` on
exhaustion — the `compile` entry point passes fuel that is never exhausted. -/

mutual

inductive Descriptor where
  | key (pk : Nat)
  | keyHash (pk : Nat)
  | multi (k : Nat) (keys : List Nat)
  | time (n : Nat)
  | hash (h : Nat)
  | threshold (k : Nat) (subs : DescList)
  | and (l r : Descriptor)
  | or (l r : Descriptor)
  | asymmetricOr (l r : Descriptor)
  | wpkh (pk : Nat)
  | sh (sub : Descriptor)
  | wsh (sub : Descriptor)
  deriving DecidableEq

inductive DescList where
  | nil
  | cons (hd : Descriptor) (tl : DescList)
  deriving DecidableEq

end

def DescList.lengthD : DescList → Nat
  | .nil => 0
  | .cons _ tl => 1 + tl.lengthD

mutual

def Descriptor.sizeD : Descriptor → Nat
  | .key _ => 1
  | .keyHash _ => 1
  | .multi _ _ => 1
  | .time _ => 1
  | .hash _ => 1
  | .threshold _ subs => 1 + subs.sizeD
  | .and l r => 1 + l.sizeD + r.sizeD
  | .or l r => 1 + l.sizeD + r.sizeD
  | .asymmetricOr l r => 1 + l.sizeD + r.sizeD
  | .wpkh _ => 1
  | .sh d => 1 + d.sizeD
  | .wsh d => 1 + d.sizeD

def DescList.sizeD : DescList → Nat
  | .nil => 1
  | .cons d tl => 1 + d.sizeD + tl.sizeD

end

/-- `Hash160::from_data(&key.serialize())` — the external hash is modelled as
an injective map on key identifiers (the claims never rely on its structure). -/
def hash160_of_key (pk : Nat) : Nat := pk

/-- An exact `f64` probability value `num/den` (all probabilities built by the
compiler are products of `1`, halvings, and `k/n` scalings). -/
structure Prob where
  num : Nat
  den : Nat
  deriving DecidableEq

def Prob.one : Prob := ⟨1, 1⟩

def Prob.zero : Prob := ⟨0, 1⟩

/-- `p / 2.0`. -/
def Prob.half (p : Prob) : Prob := ⟨p.num, p.den * 2⟩

/-- `p * k as f64 / n as f64`. -/
def Prob.scale (p : Prob) (k n : Nat) : Prob := ⟨p.num * k, p.den * n⟩

/-- Source `Cost<T>`: an AST annotated with script cost and expected
satisfaction / dissatisfaction witness costs. -/
structure Cost (α : Type) where
  ast : α
  pk_cost : Nat
  sat_cost : Nat
  dissat_cost : Nat
  deriving DecidableEq

/-- The weight `pk_cost + p·sat_cost + (1−p)·dissat_cost` of a candidate,
scaled by the (positive) denominator of `p` into an exact integer; comparing
two candidates at the same `p` by these scaled weights is exactly the `f64`
comparison whenever the latter is computed exactly. -/
def Cost.weightScaled {α : Type} (c : Cost α) (p : Prob) : Int :=
  (c.pk_cost : Int) * p.den + (p.num : Int) * c.sat_cost +
    ((p.den : Int) - p.num) * c.dissat_cost

/-- Source `min_cost`: keep `one` only when its weight is strictly smaller. -/
def min_cost {α β : Type} (one : Cost α) (two : Cost β) (p : Prob) (cast : β → α) :
    Cost α :=
  if one.weightScaled p < two.weightScaled p then one
  else { ast := cast two.ast, pk_cost := two.pk_cost, sat_cost := two.sat_cost,
         dissat_cost := two.dissat_cost }

/-- Source `compare_rules!` fold: pop the last rule as the accumulator and fold
`min_cost acc rule` over the earlier rules in listed order. -/
def compare_rules {α : Type} (p : Prob) (rules : List (Cost α)) : Option (Cost α) :=
  match rules.getLast? with
  | none => none
  | some lastRule => some (rules.dropLast.foldl (fun acc n => min_cost acc n p id) lastRule)

/-- Source `Iterator::min_by_key(|c| c.pk_cost + c.sat_cost)`: first minimal
element. -/
def min_by_pk_sat {α : Type} : List (Cost α) → Option (Cost α)
  | [] => none
  | c :: rest =>
    some (rest.foldl
      (fun best x => if x.pk_cost + x.sat_cost < best.pk_cost + best.sat_cost then x else best) c)

/-- `match (k > 16, keys.len() > 16)` numeric-push cost of a multisig header. -/
def multisig_num_cost (k n : Nat) : Nat :=
  match decide (16 < k), decide (16 < n) with
  | true, true => 4
  | false, true => 3
  | true, false => 3
  | false, false => 2

mutual

/-- Source `E::from_descriptor`. -/
def E.from_descriptor : Nat → Descriptor → Prob → Option (Cost E)
  | 0, _, _ => none
  | fuel+1, desc, p =>
    match desc with
    | .key pk => some ⟨E.checkSig pk, 35, 73, 1⟩
    | .keyHash pk =>
      let hash := hash160_of_key pk
      let standard : Cost E := ⟨E.checkSigHash hash, 25, 34 + 73, 34 + 1⟩
      let cheap_dissat : Cost E := ⟨E.checkSigHashF hash, 29, 34 + 73, 1⟩
      some (min_cost standard cheap_dissat p id)
    | .multi k keys =>
      let num_cost := multisig_num_cost k keys.length
      let standard : Cost E :=
        ⟨E.checkMultiSig k keys, num_cost + 34 * keys.length + 1, 1 + 73 * k, 1 + k⟩
      let cheap_dissat : Cost E :=
        ⟨E.checkMultiSigF k keys, num_cost + 34 * keys.length + 5, 1 + 73 * k, 1⟩
      some (min_cost standard cheap_dissat p id)
    | .time _ => do
      let f ← F.from_descriptor fuel desc Prob.one
      some ⟨E.castF f.ast, f.pk_cost + 6, 1, 2⟩
    | .hash h => some ⟨E.hashEqual h, 31, 33, 1⟩
    | .threshold k subs =>
      let num_cost := (push_int k).length
      (match subs with
       | .nil => none
       | .cons e0 rest => do
         let pChild := p.scale k subs.lengthD
         let e ← E.from_descriptor fuel e0 pChild
         let ws ← W.fromDescriptorList fuel rest pChild
         let pk_cost := 1 + num_cost + e.pk_cost + (ws.map (fun w => w.pk_cost)).sum
         let sat_cost := e.sat_cost + (ws.map (fun w => w.sat_cost)).sum
         let dissat_cost := e.dissat_cost + (ws.map (fun w => w.dissat_cost)).sum
         some ⟨E.threshold k e.ast (WList.ofList (ws.map (fun w => w.ast))), pk_cost,
               sat_cost * k / subs.lengthD, dissat_cost * k / subs.lengthD⟩)
    | .and l r => do
      let le ← E.from_descriptor fuel l p
      let rw ← W.from_descriptor fuel r p
      let lw ← W.from_descriptor fuel l p
      let re ← E.from_descriptor fuel r p
      let rf ← F.from_descriptor fuel r Prob.one
      let lf ← F.from_descriptor fuel l Prob.one
      let lv ← V.from_descriptor fuel l Prob.one
      let rv ← V.from_descriptor fuel r Prob.one
      compare_rules p
        [⟨E.parallelAnd le.ast rw.ast, le.pk_cost + rw.pk_cost + 1,
          le.sat_cost + rw.sat_cost, le.dissat_cost + rw.dissat_cost⟩,
         ⟨E.parallelAnd re.ast lw.ast, lw.pk_cost + re.pk_cost + 1,
          lw.sat_cost + re.sat_cost, lw.dissat_cost + re.dissat_cost⟩,
         ⟨E.cascadeAnd le.ast rf.ast, le.pk_cost + rf.pk_cost + 4,
          le.sat_cost + rf.sat_cost, le.dissat_cost⟩,
         ⟨E.cascadeAnd re.ast lf.ast, lf.pk_cost + re.pk_cost + 4,
          lf.sat_cost + re.sat_cost, re.dissat_cost⟩,
         ⟨E.castF (F.and lv.ast rf.ast), lv.pk_cost + rf.pk_cost + 6,
          lv.sat_cost + rf.sat_cost + 1, 2⟩,
         ⟨E.castF (F.and rv.ast lf.ast), lf.pk_cost + rv.pk_cost + 6,
          lf.sat_cost + rv.sat_cost + 1, 2⟩]
    | .or l r => do
      let le ← E.from_descriptor fuel l p.half
      let rw ← W.from_descriptor fuel r p.half
      let lw ← W.from_descriptor fuel l p.half
      let re ← E.from_descriptor fuel r p.half
      let e ← compare_rules p
        [⟨E.parallelOr le.ast rw.ast, le.pk_cost + rw.pk_cost + 1,
          (le.sat_cost + rw.sat_cost + le.dissat_cost + rw.dissat_cost) / 2,
          le.dissat_cost + rw.dissat_cost⟩,
         ⟨E.parallelOr re.ast lw.ast, lw.pk_cost + re.pk_cost + 1,
          (lw.sat_cost + re.sat_cost + lw.dissat_cost + re.dissat_cost) / 2,
          lw.dissat_cost + re.dissat_cost⟩]
      let fcost ← F.from_descriptor fuel desc p
      let f : Cost E := ⟨E.castF fcost.ast, fcost.pk_cost + 6, 1 + fcost.sat_cost, 2⟩
      some (min_cost e f p id)
    | .asymmetricOr l r => do
      let le ← E.from_descriptor fuel l p
      let rw ← W.from_descriptor fuel r Prob.zero
      let lw ← W.from_descriptor fuel l p
      let re ← E.from_descriptor fuel r Prob.zero
      let e ← compare_rules p
        [⟨E.parallelOr le.ast rw.ast, le.pk_cost + rw.pk_cost + 1,
          le.sat_cost + rw.dissat_cost, le.dissat_cost + rw.dissat_cost⟩,
         ⟨E.parallelOr re.ast lw.ast, lw.pk_cost + re.pk_cost + 1,
          lw.sat_cost + re.dissat_cost, lw.dissat_cost + re.dissat_cost⟩]
      let fcost ← F.from_descriptor fuel desc p
      let f : Cost E := ⟨E.castF fcost.ast, fcost.pk_cost + 6, 1 + fcost.sat_cost, 2⟩
      some (min_cost e f p id)
    | .wpkh _ => none
    | .sh _ => none
    | .wsh _ => none

/-- Source `W::from_descriptor`. -/
def W.from_descriptor : Nat → Descriptor → Prob → Option (Cost W)
  | 0, _, _ => none
  | fuel+1, desc, p =>
    match desc with
    | .key pk => some ⟨W.checkSig pk, 36, 73, 1⟩
    | .hash h => some ⟨W.hashEqual h, 32, 33, 1⟩
    | .time n =>
      let num_cost := (push_int n).length
      some ⟨W.csv n, 8 + num_cost, 1, 2⟩
    | .keyHash _ | .multi _ _ | .and _ _ | .or _ _ | .asymmetricOr _ _
    | .threshold _ _ => do
      let e ← E.from_descriptor fuel desc p
      some ⟨W.castE e.ast, e.pk_cost + 2, e.sat_cost, e.dissat_cost⟩
    | .wpkh _ => none
    | .sh _ => none
    | .wsh _ => none

/-- The `for expr in &exprs[1..]` loop of the threshold arms: compile every
remaining sub-policy at type `W`. -/
def W.fromDescriptorList : Nat → DescList → Prob → Option (List (Cost W))
  | 0, _, _ => none
  | _+1, .nil, _ => some []
  | fuel+1, .cons d tl, p => do
    let w ← W.from_descriptor fuel d p
    let ws ← W.fromDescriptorList fuel tl p
    some (w :: ws)

/-- Source `F::from_descriptor`. -/
def F.from_descriptor : Nat → Descriptor → Prob → Option (Cost F)
  | 0, _, _ => none
  | fuel+1, desc, p =>
    match desc with
    | .key pk => some ⟨F.checkSig pk, 36, 73, 0⟩
    | .keyHash pk => some ⟨F.checkSigHash (hash160_of_key pk), 26, 34 + 73, 0⟩
    | .multi k keys =>
      let num_cost := multisig_num_cost k keys.length
      some ⟨F.checkMultiSig k keys, num_cost + 34 * keys.length + 2, 1 + 73 * k, 0⟩
    | .threshold k subs =>
      let num_cost := (push_int k).length
      (match subs with
       | .nil => none
       | .cons e0 rest => do
         let pChild := p.scale k subs.lengthD
         let e ← E.from_descriptor fuel e0 pChild
         let ws ← W.fromDescriptorList fuel rest pChild
         let pk_cost := 2 + num_cost + e.pk_cost + (ws.map (fun w => w.pk_cost)).sum
         let sat_cost := e.sat_cost + (ws.map (fun w => w.sat_cost)).sum
         let dissat_cost := e.dissat_cost + (ws.map (fun w => w.dissat_cost)).sum
         some ⟨F.threshold k e.ast (WList.ofList (ws.map (fun w => w.ast))), pk_cost,
               sat_cost * k / subs.lengthD, dissat_cost * k / subs.lengthD⟩)
    | .time n =>
      let num_cost := (push_int n).length
      some ⟨F.csv n, 1 + num_cost, 0, 0⟩
    | .hash h => some ⟨F.hashEqual h, 28, 33, 0⟩
    | .and l r => do
      let vl ← V.from_descriptor fuel l p
      let vr ← V.from_descriptor fuel r p
      let fl ← F.from_descriptor fuel l p
      let fr ← F.from_descriptor fuel r p
      if vl.pk_cost + fr.pk_cost + vl.sat_cost + fr.sat_cost <
         vr.pk_cost + fl.pk_cost + vr.sat_cost + fl.sat_cost then
        some ⟨F.and vl.ast fr.ast, vl.pk_cost + fr.pk_cost, vl.sat_cost + fr.sat_cost, 0⟩
      else
        some ⟨F.and vr.ast fl.ast, vr.pk_cost + fl.pk_cost, vr.sat_cost + fl.sat_cost, 0⟩
    | .or l r => do
      let le ← E.from_descriptor fuel l p.half
      let rw ← W.from_descriptor fuel r p.half
      let lw ← W.from_descriptor fuel l p.half
      let re ← E.from_descriptor fuel r p.half
      let rf ← F.from_descriptor fuel r Prob.one
      let lf ← F.from_descriptor fuel l Prob.one
      let rv ← V.from_descriptor fuel r Prob.one
      let lv ← V.from_descriptor fuel l Prob.one
      compare_rules p
        [⟨F.parallelOr le.ast rw.ast, le.pk_cost + rw.pk_cost + 3,
          (le.sat_cost + rw.sat_cost + le.dissat_cost + rw.dissat_cost) / 2, 0⟩,
         ⟨F.parallelOr re.ast lw.ast, lw.pk_cost + re.pk_cost + 3,
          (lw.sat_cost + re.sat_cost + lw.dissat_cost + re.dissat_cost) / 2, 0⟩,
         ⟨F.cascadeOr le.ast rf.ast, le.pk_cost + rf.pk_cost + 3,
          (le.sat_cost + le.dissat_cost + rf.sat_cost) / 2, 0⟩,
         ⟨F.cascadeOr re.ast lf.ast, lf.pk_cost + re.pk_cost + 3,
          (re.sat_cost + re.dissat_cost + lf.sat_cost) / 2, 0⟩,
         ⟨F.cascadeOrV le.ast rv.ast, le.pk_cost + rv.pk_cost + 3,
          (le.sat_cost + le.dissat_cost + rv.sat_cost) / 2, 0⟩,
         ⟨F.cascadeOrV re.ast lv.ast, lv.pk_cost + re.pk_cost + 3,
          (re.sat_cost + re.dissat_cost + lv.sat_cost) / 2, 0⟩,
         ⟨F.switchOr lf.ast rf.ast, lf.pk_cost + rf.pk_cost + 5,
          (lf.sat_cost + rf.sat_cost + 3) / 2, 0⟩,
         ⟨F.switchOrV lv.ast rv.ast, lv.pk_cost + rv.pk_cost + 6,
          (lv.sat_cost + rv.sat_cost + 3) / 2, 0⟩]
    | .asymmetricOr l r => do
      let le ← E.from_descriptor fuel l p
      let rw ← W.from_descriptor fuel r Prob.zero
      let lw ← W.from_descriptor fuel l p
      let re ← E.from_descriptor fuel r Prob.zero
      let rf ← F.from_descriptor fuel r Prob.one
      let lf ← F.from_descriptor fuel l Prob.one
      let rv ← V.from_descriptor fuel r Prob.one
      let lv ← V.from_descriptor fuel l Prob.one
      compare_rules p
        [⟨F.parallelOr le.ast rw.ast, le.pk_cost + rw.pk_cost + 3,
          le.sat_cost + rw.dissat_cost, 0⟩,
         ⟨F.parallelOr re.ast lw.ast, lw.pk_cost + re.pk_cost + 3,
          lw.sat_cost + re.dissat_cost, 0⟩,
         ⟨F.cascadeOr le.ast rf.ast, le.pk_cost + rf.pk_cost + 3, le.sat_cost, 0⟩,
         ⟨F.cascadeOr re.ast lf.ast, lf.pk_cost + re.pk_cost + 3,
          re.dissat_cost + lf.sat_cost, 0⟩,
         ⟨F.cascadeOrV le.ast rv.ast, le.pk_cost + rv.pk_cost + 3, le.sat_cost, 0⟩,
         ⟨F.cascadeOrV re.ast lv.ast, lv.pk_cost + re.pk_cost + 3,
          re.dissat_cost + lv.sat_cost, 0⟩,
         ⟨F.switchOr rf.ast lf.ast, lf.pk_cost + rf.pk_cost + 5, lf.sat_cost + 1, 0⟩,
         ⟨F.switchOrV rv.ast lv.ast, lv.pk_cost + rv.pk_cost + 6, lv.sat_cost + 1, 0⟩]
    | .wpkh _ => none
    | .sh _ => none
    | .wsh _ => none

/-- Source `V::from_descriptor` (`Or`/`AsymmetricOr` are `unimplemented!`). -/
def V.from_descriptor : Nat → Descriptor → Prob → Option (Cost V)
  | 0, _, _ => none
  | fuel+1, desc, p =>
    match desc with
    | .key pk => some ⟨V.checkSig pk, 35, 73, 0⟩
    | .keyHash pk => some ⟨V.checkSigHash (hash160_of_key pk), 25, 34 + 73, 0⟩
    | .multi k keys =>
      let num_cost := multisig_num_cost k keys.length
      some ⟨V.checkMultiSig k keys, num_cost + 34 * keys.length + 1, 1 + 73 * k, 0⟩
    | .time n =>
      let num_cost := (push_int n).length
      some ⟨V.csv n, 2 + num_cost, 0, 0⟩
    | .hash h => some ⟨V.hashEqual h, 27, 33, 1⟩
    | .threshold k subs =>
      let num_cost := (push_int k).length
      (match subs with
       | .nil => none
       | .cons e0 rest => do
         let pChild := p.scale k subs.lengthD
         let e ← E.from_descriptor fuel e0 pChild
         let ws ← W.fromDescriptorList fuel rest pChild
         let pk_cost := 1 + num_cost + e.pk_cost + (ws.map (fun w => w.pk_cost)).sum
         let sat_cost := e.sat_cost + (ws.map (fun w => w.sat_cost)).sum
         let dissat_cost := e.dissat_cost + (ws.map (fun w => w.dissat_cost)).sum
         some ⟨V.threshold k e.ast (WList.ofList (ws.map (fun w => w.ast))), pk_cost,
               sat_cost * k / subs.lengthD, dissat_cost * k / subs.lengthD⟩)
    | .and l r => do
      let lcost ← V.from_descriptor fuel l p
      let rcost ← V.from_descriptor fuel r p
      some ⟨V.and lcost.ast rcost.ast, lcost.pk_cost + rcost.pk_cost,
            lcost.sat_cost + rcost.sat_cost, 0⟩
    | .or _ _ => none
    | .asymmetricOr _ _ => none
    | .wpkh _ => none
    | .sh _ => none
    | .wsh _ => none

/-- Source `T::from_descriptor`. -/
def T.from_descriptor : Nat → Descriptor → Prob → Option (Cost T)
  | 0, _, _ => none
  | fuel+1, desc, p =>
    match desc with
    | .key _ | .keyHash _ | .multi _ _ => do
      let e ← E.from_descriptor fuel desc p
      some ⟨T.castE e.ast, e.pk_cost, e.sat_cost, 0⟩
    | .time _ => do
      let f ← F.from_descriptor fuel desc p
      some ⟨T.castF f.ast, f.pk_cost, f.sat_cost, 0⟩
    | .hash h => some ⟨T.hashEqual h, 27, 33, 0⟩
    | .and l r => do
      let e ← E.from_descriptor fuel desc Prob.one
      let f ← F.from_descriptor fuel desc Prob.one
      let lv ← V.from_descriptor fuel l Prob.one
      let rv ← V.from_descriptor fuel r Prob.one
      let lt ← T.from_descriptor fuel l Prob.one
      let rt ← T.from_descriptor fuel r Prob.one
      min_by_pk_sat
        [⟨T.castE e.ast, e.pk_cost, e.sat_cost, 0⟩,
         ⟨T.castF f.ast, f.pk_cost, f.sat_cost, 0⟩,
         ⟨T.and lv.ast rt.ast, lv.pk_cost + rt.pk_cost, lv.sat_cost + rt.sat_cost, 0⟩,
         ⟨T.and rv.ast lt.ast, lt.pk_cost + rv.pk_cost, lt.sat_cost + rv.sat_cost, 0⟩]
    | .or l r => do
      let e ← E.from_descriptor fuel desc Prob.one
      let f ← F.from_descriptor fuel desc Prob.one
      let le ← E.from_descriptor fuel l p.half
      let re ← E.from_descriptor fuel r p.half
      let lt ← T.from_descriptor fuel l Prob.one
      let rt ← T.from_descriptor fuel r Prob.one
      min_by_pk_sat
        [⟨T.castE e.ast, e.pk_cost, e.sat_cost, 0⟩,
         ⟨T.castF f.ast, f.pk_cost, f.sat_cost, 0⟩,
         ⟨T.cascadeOr le.ast rt.ast, le.pk_cost + rt.pk_cost + 3,
          (le.sat_cost + le.dissat_cost + rt.sat_cost) / 2, 0⟩,
         ⟨T.cascadeOr re.ast lt.ast, lt.pk_cost + re.pk_cost + 3,
          (re.sat_cost + re.dissat_cost + lt.sat_cost) / 2, 0⟩,
         ⟨T.switchOr lt.ast rt.ast, le.pk_cost + rt.pk_cost + 5,
          (le.sat_cost + re.sat_cost + 3) / 2, 0⟩]
    | .asymmetricOr l r => do
      let e ← E.from_descriptor fuel desc Prob.one
      let f ← F.from_descriptor fuel desc Prob.one
      let le ← E.from_descriptor fuel l p
      let re ← E.from_descriptor fuel r Prob.zero
      let lt ← T.from_descriptor fuel l Prob.one
      let rt ← T.from_descriptor fuel r Prob.one
      min_by_pk_sat
        [⟨T.castE e.ast, e.pk_cost, e.sat_cost, 0⟩,
         ⟨T.castF f.ast, f.pk_cost, f.sat_cost, 0⟩,
         ⟨T.cascadeOr le.ast rt.ast, le.pk_cost + rt.pk_cost + 3, le.sat_cost, 0⟩,
         ⟨T.cascadeOr re.ast lt.ast, lt.pk_cost + re.pk_cost + 3,
          re.dissat_cost + lt.sat_cost, 0⟩,
         ⟨T.switchOr rt.ast lt.ast, le.pk_cost + rt.pk_cost + 5, le.sat_cost + 1, 0⟩]
    | .threshold _ _ => do
      let e ← E.from_descriptor fuel desc Prob.one
      let f ← F.from_descriptor fuel desc Prob.one
      min_by_pk_sat
        [⟨T.castE e.ast, e.pk_cost, e.sat_cost, 0⟩,
         ⟨T.castF f.ast, f.pk_cost, f.sat_cost, 0⟩]
    | .wpkh _ => none
    | .sh _ => none
    | .wsh _ => none

end

/-- Source `ParseTree::compile`: `T::from_descriptor(desc, 1.0)` with adequate
fuel; `none` is a Rust panic. -/
def ParseTree.compile (desc : Descriptor) : Option ParseTree :=
  (T.from_descriptor (8 * desc.sizeD + 8) desc Prob.one).map (fun c => ⟨c.ast⟩)

/-! ## Structural predicates used by the claims -/

mutual

/-- A descriptor containing a `Threshold` with an empty subexpression list. -/
def Descriptor.hasEmptyThreshold : Descriptor → Bool
  | .key _ => false
  | .keyHash _ => false
  | .multi _ _ => false
  | .time _ => false
  | .hash _ => false
  | .threshold _ subs =>
    (match subs with | .nil => true | .cons _ _ => false) || subs.anyEmptyThreshold
  | .and l r => l.hasEmptyThreshold || r.hasEmptyThreshold
  | .or l r => l.hasEmptyThreshold || r.hasEmptyThreshold
  | .asymmetricOr l r => l.hasEmptyThreshold || r.hasEmptyThreshold
  | .wpkh _ => false
  | .sh d => d.hasEmptyThreshold
  | .wsh d => d.hasEmptyThreshold

def DescList.anyEmptyThreshold : DescList → Bool
  | .nil => false
  | .cons d tl => d.hasEmptyThreshold || tl.anyEmptyThreshold

end

mutual

/-- No `Or` or `Switch` variant of any type occurs in the tree. -/
def E.noOrSwitch : E → Bool
  | .checkSig _ => true
  | .checkSigHash _ => true
  | .checkSigHashF _ => true
  | .checkMultiSig _ _ => true
  | .checkMultiSigF _ _ => true
  | .hashEqual _ => true
  | .threshold _ sube subw => sube.noOrSwitch && subw.noOrSwitch
  | .parallelAnd l r => l.noOrSwitch && r.noOrSwitch
  | .cascadeAnd l r => l.noOrSwitch && r.noOrSwitch
  | .parallelOr _ _ => false
  | .cascadeOr _ _ => false
  | .castF f => f.noOrSwitch

def W.noOrSwitch : W → Bool
  | .checkSig _ => true
  | .hashEqual _ => true
  | .csv _ => true
  | .castE e => e.noOrSwitch

def WList.noOrSwitch : WList → Bool
  | .nil => true
  | .cons w tl => w.noOrSwitch && tl.noOrSwitch

def F.noOrSwitch : F → Bool
  | .checkSig _ => true
  | .checkMultiSig _ _ => true
  | .checkSigHash _ => true
  | .csv _ => true
  | .hashEqual _ => true
  | .threshold _ sube subw => sube.noOrSwitch && subw.noOrSwitch
  | .and l r => l.noOrSwitch && r.noOrSwitch
  | .parallelOr _ _ => false
  | .switchOr _ _ => false
  | .switchOrV _ _ => false
  | .cascadeOr _ _ => false
  | .cascadeOrV _ _ => false

def V.noOrSwitch : V → Bool
  | .checkSig _ => true
  | .checkMultiSig _ _ => true
  | .checkSigHash _ => true
  | .csv _ => true
  | .hashEqual _ => true
  | .threshold _ sube subw => sube.noOrSwitch && subw.noOrSwitch
  | .and l r => l.noOrSwitch && r.noOrSwitch
  | .parallelOr _ _ => false
  | .switchOr _ _ => false
  | .switchOrT _ _ => false
  | .cascadeOr _ _ => false

def T.noOrSwitch : T → Bool
  | .hashEqual _ => true
  | .and l r => l.noOrSwitch && r.noOrSwitch
  | .switchOr _ _ => false
  | .cascadeOr _ _ => false
  | .castE e => e.noOrSwitch
  | .castF f => f.noOrSwitch

end

mutual

/-- No `CheckSigHash`/`CheckSigHashF` variant occurs in the tree (those are
the fragments whose satisfaction consults a key found through the `pkhs` map). -/
def E.noCheckSigHash : E → Bool
  | .checkSig _ => true
  | .checkSigHash _ => false
  | .checkSigHashF _ => false
  | .checkMultiSig _ _ => true
  | .checkMultiSigF _ _ => true
  | .hashEqual _ => true
  | .threshold _ sube subw => sube.noCheckSigHash && subw.noCheckSigHash
  | .parallelAnd l r => l.noCheckSigHash && r.noCheckSigHash
  | .cascadeAnd l r => l.noCheckSigHash && r.noCheckSigHash
  | .parallelOr l r => l.noCheckSigHash && r.noCheckSigHash
  | .cascadeOr l r => l.noCheckSigHash && r.noCheckSigHash
  | .castF f => f.noCheckSigHash

def W.noCheckSigHash : W → Bool
  | .checkSig _ => true
  | .hashEqual _ => true
  | .csv _ => true
  | .castE e => e.noCheckSigHash

def WList.noCheckSigHash : WList → Bool
  | .nil => true
  | .cons w tl => w.noCheckSigHash && tl.noCheckSigHash

def F.noCheckSigHash : F → Bool
  | .checkSig _ => true
  | .checkMultiSig _ _ => true
  | .checkSigHash _ => false
  | .csv _ => true
  | .hashEqual _ => true
  | .threshold _ sube subw => sube.noCheckSigHash && subw.noCheckSigHash
  | .and l r => l.noCheckSigHash && r.noCheckSigHash
  | .parallelOr l r => l.noCheckSigHash && r.noCheckSigHash
  | .switchOr l r => l.noCheckSigHash && r.noCheckSigHash
  | .switchOrV l r => l.noCheckSigHash && r.noCheckSigHash
  | .cascadeOr l r => l.noCheckSigHash && r.noCheckSigHash
  | .cascadeOrV l r => l.noCheckSigHash && r.noCheckSigHash

def V.noCheckSigHash : V → Bool
  | .checkSig _ => true
  | .checkMultiSig _ _ => true
  | .checkSigHash _ => false
  | .csv _ => true
  | .hashEqual _ => true
  | .threshold _ sube subw => sube.noCheckSigHash && subw.noCheckSigHash
  | .and l r => l.noCheckSigHash && r.noCheckSigHash
  | .parallelOr l r => l.noCheckSigHash && r.noCheckSigHash
  | .switchOr l r => l.noCheckSigHash && r.noCheckSigHash
  | .switchOrT l r => l.noCheckSigHash && r.noCheckSigHash
  | .cascadeOr l r => l.noCheckSigHash && r.noCheckSigHash

def T.noCheckSigHash : T → Bool
  | .hashEqual _ => true
  | .and l r => l.noCheckSigHash && r.noCheckSigHash
  | .switchOr l r => l.noCheckSigHash && r.noCheckSigHash
  | .cascadeOr l r => l.noCheckSigHash && r.noCheckSigHash
  | .castE e => e.noCheckSigHash
  | .castF f => f.noCheckSigHash

end

/-! ## General lemmas about the embedding -/

theorem exists_ok_append (x y : Except Error Witness) :
    (∃ w, (do
        let a ← x
        let b ← y
        Except.ok (a ++ b)) = .ok w) ↔ (∃ a, x = .ok a) ∧ ∃ b, y = .ok b := by
  cases x <;> cases y <;> simp [Bind.bind, Except.bind]

theorem exists_ok_push1 (x : Except Error Witness) :
    (∃ w, (do
        let a ← x
        Except.ok (a ++ [[1]])) = .ok w) ↔ ∃ a, x = .ok a := by
  cases x <;> simp [Bind.bind, Except.bind]

theorem toOption_toList_length_mono {x y : Except Error Witness}
    (h : (∃ w, x = .ok w) → ∃ w, y = .ok w) :
    x.toOption.toList.length ≤ y.toOption.toList.length := by
  cases x with
  | error e =>
    cases y <;> simp [Except.toOption]
  | ok w =>
    obtain ⟨w2, hw2⟩ := h ⟨w, rfl⟩
    rw [hw2]
    simp [Except.toOption]

/-- Success of `satisfy_threshold` is exactly: `k = 0`, or at least `k`
children satisfied. -/
theorem satisfy_threshold_exists_ok (k : Nat) (esat : Except Error Witness)
    (wsats : List (Except Error Witness)) :
    (∃ w, satisfy_threshold k esat wsats = .ok w) ↔
      (k = 0 ∨ k ≤ (esat.toOption.toList ++ wsats.filterMap Except.toOption).length) := by
  unfold satisfy_threshold
  by_cases hk : k = 0
  · simp [hk]
  · rw [if_neg hk]
    by_cases hlen : (esat.toOption.toList ++ wsats.filterMap Except.toOption).length < k
    · rw [if_pos hlen]
      simp only [List.length_append] at hlen ⊢
      simp [hk]
      omega
    · rw [if_neg hlen]
      simp only [List.length_append] at hlen ⊢
      simp [hk]
      omega

theorem orderedInsert_map {α β : Type} (f : α → β) (key : β → Nat) (a : α) (l : List α) :
    (l.orderedInsert (fun x y => key (f x) ≤ key (f y)) a).map f =
      (l.map f).orderedInsert (fun x y => key x ≤ key y) (f a) := by
  induction l with
  | nil => rfl
  | cons b tl ih =>
    simp only [List.orderedInsert, List.map]
    split_ifs <;> simp_all

theorem insertionSort_map {α β : Type} (f : α → β) (key : β → Nat) (l : List α) :
    (l.insertionSort (fun x y => key (f x) ≤ key (f y))).map f =
      (l.map f).insertionSort (fun x y => key x ≤ key y) := by
  induction l with
  | nil => rfl
  | cons a tl ih =>
    simp only [List.insertionSort, List.map]
    rw [orderedInsert_map, ih]

theorem map_getD_range {α : Type} (l : List α) (d : α) :
    (List.range l.length).map (fun i => l.getD i d) = l := by
  induction l with
  | nil => rfl
  | cons a tl ih =>
    rw [List.length_cons, List.range_succ_eq_map, List.map_cons, List.map_map]
    simp only [Function.comp_def, List.getD_cons_succ, List.getD_cons_zero]
    rw [ih]

/-! # The claims -/

/-- C1. The claim states the parse/serialize bijection: `parse(serialize(t))
== Ok(t)` for every AST and `serialize(parse(s)) == s` for every accepted
script.  The code breaks it: the `Threshold` parse loop collects the `W`
children right-to-left and — unlike the `CheckMultiSig` arm, which calls
`pks.reverse()` — never reverses them.  At the failing input (a threshold
with two distinct `W` children) the parse of the serialization succeeds but
returns the tree with the `W` children swapped, so both halves of the claim
fail; this contradicts the module documentation ("Is bijective with the
subset of script that it maps to") and the intent of the roundtrip tests. -/
theorem C1_roundtrip_eval :
    ParseTree.parse (ParseTree.serialize ⟨T.castE (E.threshold 1 (E.checkSig 1)
        (.cons (W.checkSig 2) (.cons (W.checkSig 3) .nil)))⟩) =
      .ok ⟨T.castE (E.threshold 1 (E.checkSig 1)
        (.cons (W.checkSig 3) (.cons (W.checkSig 2) .nil)))⟩ ∧
    (⟨T.castE (E.threshold 1 (E.checkSig 1)
        (.cons (W.checkSig 3) (.cons (W.checkSig 2) .nil)))⟩ : ParseTree) ≠
      ⟨T.castE (E.threshold 1 (E.checkSig 1)
        (.cons (W.checkSig 2) (.cons (W.checkSig 3) .nil)))⟩ ∧
    ParseTree.serialize ⟨T.castE (E.threshold 1 (E.checkSig 1)
        (.cons (W.checkSig 3) (.cons (W.checkSig 2) .nil)))⟩ ≠
      ParseTree.serialize ⟨T.castE (E.threshold 1 (E.checkSig 1)
        (.cons (W.checkSig 2) (.cons (W.checkSig 3) .nil)))⟩ := by
  refine ⟨by decide, by decide, by decide⟩

/-- C2 (counterexample). The claim says `compile` returns normally on every
descriptor with no empty `Threshold` and panics only on empty thresholds.
The descriptor `And(Or(Key 1, Key 2), Key 3)` contains no `Threshold` at all,
yet compiling it panics: the `And` rules request `V::from_descriptor` of the
`Or` child, which is `unimplemented!()`. -/
theorem C2_counterexample :
    ParseTree.compile (.and (.or (.key 1) (.key 2)) (.key 3)) = none ∧
    Descriptor.hasEmptyThreshold (.and (.or (.key 1) (.key 2)) (.key 3)) = false := by
  refine ⟨by decide, by decide⟩

/-- Every `from_descriptor` entry point returns `none` (panics) on a
descriptor containing an empty `Threshold`, at every fuel: each arm compiles
each sub-policy at some type before choosing, so the `panic!` in the empty
`Threshold` arm is always reached. -/
theorem fromDescriptor_none_of_emptyThreshold : ∀ (fuel : Nat),
    (∀ (d : Descriptor) (p : Prob), d.hasEmptyThreshold = true →
      E.from_descriptor fuel d p = none) ∧
    (∀ (d : Descriptor) (p : Prob), d.hasEmptyThreshold = true →
      W.from_descriptor fuel d p = none) ∧
    (∀ (dl : DescList) (p : Prob), dl.anyEmptyThreshold = true →
      W.fromDescriptorList fuel dl p = none) ∧
    (∀ (d : Descriptor) (p : Prob), d.hasEmptyThreshold = true →
      F.from_descriptor fuel d p = none) ∧
    (∀ (d : Descriptor) (p : Prob), d.hasEmptyThreshold = true →
      V.from_descriptor fuel d p = none) ∧
    (∀ (d : Descriptor) (p : Prob), d.hasEmptyThreshold = true →
      T.from_descriptor fuel d p = none) := by
  intro fuel
  induction fuel with
  | zero =>
    refine ⟨?_, ?_, ?_, ?_, ?_, ?_⟩ <;> exact fun _ _ _ => rfl
  | succ n ih =>
    obtain ⟨ihE, ihW, ihL, ihF, ihV, ihT⟩ := ih
    have hE : ∀ (d : Descriptor) (p : Prob), d.hasEmptyThreshold = true →
        E.from_descriptor (n+1) d p = none := by
      intro d p h
      cases d with
      | key pk => simp [Descriptor.hasEmptyThreshold] at h
      | keyHash pk => simp [Descriptor.hasEmptyThreshold] at h
      | multi k keys => simp [Descriptor.hasEmptyThreshold] at h
      | time m => simp [Descriptor.hasEmptyThreshold] at h
      | hash hh => simp [Descriptor.hasEmptyThreshold] at h
      | threshold k subs =>
        cases subs with
        | nil => simp [E.from_descriptor]
        | cons e0 rest =>
          simp [Descriptor.hasEmptyThreshold, DescList.anyEmptyThreshold] at h
          rcases h with h1 | h1
          · simp [E.from_descriptor,
              ihE e0 (p.scale k (DescList.cons e0 rest).lengthD) h1, Bind.bind, Option.bind]
          · cases he : E.from_descriptor n e0 (p.scale k (DescList.cons e0 rest).lengthD) with
            | none => simp [E.from_descriptor, he, Bind.bind, Option.bind]
            | some c =>
              simp [E.from_descriptor, he,
                ihL rest (p.scale k (DescList.cons e0 rest).lengthD) h1, Bind.bind, Option.bind]
      | and l r =>
        simp [Descriptor.hasEmptyThreshold] at h
        rcases h with h1 | h1
        · simp [E.from_descriptor, ihE l p h1, Bind.bind, Option.bind]
        · cases he : E.from_descriptor n l p with
          | none => simp [E.from_descriptor, he, Bind.bind, Option.bind]
          | some c => simp [E.from_descriptor, he, ihW r p h1, Bind.bind, Option.bind]
      | or l r =>
        simp [Descriptor.hasEmptyThreshold] at h
        rcases h with h1 | h1
        · simp [E.from_descriptor, ihE l p.half h1, Bind.bind, Option.bind]
        · cases he : E.from_descriptor n l p.half with
          | none => simp [E.from_descriptor, he, Bind.bind, Option.bind]
          | some c => simp [E.from_descriptor, he, ihW r p.half h1, Bind.bind, Option.bind]
      | asymmetricOr l r =>
        simp [Descriptor.hasEmptyThreshold] at h
        rcases h with h1 | h1
        · simp [E.from_descriptor, ihE l p h1, Bind.bind, Option.bind]
        · cases he : E.from_descriptor n l p with
          | none => simp [E.from_descriptor, he, Bind.bind, Option.bind]
          | some c => simp [E.from_descriptor, he, ihW r Prob.zero h1, Bind.bind, Option.bind]
      | wpkh pk => simp [E.from_descriptor]
      | sh d2 => simp [E.from_descriptor]
      | wsh d2 => simp [E.from_descriptor]
    have hW : ∀ (d : Descriptor) (p : Prob), d.hasEmptyThreshold = true →
        W.from_descriptor (n+1) d p = none := by
      intro d p h
      cases d with
      | key pk => simp [Descriptor.hasEmptyThreshold] at h
      | keyHash pk => simp [Descriptor.hasEmptyThreshold] at h
      | multi k keys => simp [Descriptor.hasEmptyThreshold] at h
      | time m => simp [Descriptor.hasEmptyThreshold] at h
      | hash hh => simp [Descriptor.hasEmptyThreshold] at h
      | threshold k subs =>
        simp [W.from_descriptor, ihE (Descriptor.threshold k subs) p h, Bind.bind, Option.bind]
      | and l r =>
        simp [W.from_descriptor, ihE (Descriptor.and l r) p h, Bind.bind, Option.bind]
      | or l r =>
        simp [W.from_descriptor, ihE (Descriptor.or l r) p h, Bind.bind, Option.bind]
      | asymmetricOr l r =>
        simp [W.from_descriptor, ihE (Descriptor.asymmetricOr l r) p h, Bind.bind, Option.bind]
      | wpkh pk => simp [W.from_descriptor]
      | sh d2 => simp [W.from_descriptor]
      | wsh d2 => simp [W.from_descriptor]
    have hL : ∀ (dl : DescList) (p : Prob), dl.anyEmptyThreshold = true →
        W.fromDescriptorList (n+1) dl p = none := by
      intro dl p h
      cases dl with
      | nil => simp [DescList.anyEmptyThreshold] at h
      | cons d tl =>
        simp [DescList.anyEmptyThreshold] at h
        rcases h with h1 | h1
        · simp [W.fromDescriptorList, ihW d p h1, Bind.bind, Option.bind]
        · cases hw : W.from_descriptor n d p with
          | none => simp [W.fromDescriptorList, hw, Bind.bind, Option.bind]
          | some c => simp [W.fromDescriptorList, hw, ihL tl p h1, Bind.bind, Option.bind]
    have hF : ∀ (d : Descriptor) (p : Prob), d.hasEmptyThreshold = true →
        F.from_descriptor (n+1) d p = none := by
      intro d p h
      cases d with
      | key pk => simp [Descriptor.hasEmptyThreshold] at h
      | keyHash pk => simp [Descriptor.hasEmptyThreshold] at h
      | multi k keys => simp [Descriptor.hasEmptyThreshold] at h
      | time m => simp [Descriptor.hasEmptyThreshold] at h
      | hash hh => simp [Descriptor.hasEmptyThreshold] at h
      | threshold k subs =>
        cases subs with
        | nil => simp [F.from_descriptor]
        | cons e0 rest =>
          simp [Descriptor.hasEmptyThreshold, DescList.anyEmptyThreshold] at h
          rcases h with h1 | h1
          · simp [F.from_descriptor,
              ihE e0 (p.scale k (DescList.cons e0 rest).lengthD) h1, Bind.bind, Option.bind]
          · cases he : E.from_descriptor n e0 (p.scale k (DescList.cons e0 rest).lengthD) with
            | none => simp [F.from_descriptor, he, Bind.bind, Option.bind]
            | some c =>
              simp [F.from_descriptor, he,
                ihL rest (p.scale k (DescList.cons e0 rest).lengthD) h1, Bind.bind, Option.bind]
      | and l r =>
        simp [Descriptor.hasEmptyThreshold] at h
        rcases h with h1 | h1
        · simp [F.from_descriptor, ihV l p h1, Bind.bind, Option.bind]
        · cases hv : V.from_descriptor n l p with
          | none => simp [F.from_descriptor, hv, Bind.bind, Option.bind]
          | some c => simp [F.from_descriptor, hv, ihV r p h1, Bind.bind, Option.bind]
      | or l r =>
        simp [Descriptor.hasEmptyThreshold] at h
        rcases h with h1 | h1
        · simp [F.from_descriptor, ihE l p.half h1, Bind.bind, Option.bind]
        · cases he : E.from_descriptor n l p.half with
          | none => simp [F.from_descriptor, he, Bind.bind, Option.bind]
          | some c => simp [F.from_descriptor, he, ihW r p.half h1, Bind.bind, Option.bind]
      | asymmetricOr l r =>
        simp [Descriptor.hasEmptyThreshold] at h
        rcases h with h1 | h1
        · simp [F.from_descriptor, ihE l p h1, Bind.bind, Option.bind]
        · cases he : E.from_descriptor n l p with
          | none => simp [F.from_descriptor, he, Bind.bind, Option.bind]
          | some c => simp [F.from_descriptor, he, ihW r Prob.zero h1, Bind.bind, Option.bind]
      | wpkh pk => simp [F.from_descriptor]
      | sh d2 => simp [F.from_descriptor]
      | wsh d2 => simp [F.from_descriptor]
    have hV : ∀ (d : Descriptor) (p : Prob), d.hasEmptyThreshold = true →
        V.from_descriptor (n+1) d p = none := by
      intro d p h
      cases d with
      | key pk => simp [Descriptor.hasEmptyThreshold] at h
      | keyHash pk => simp [Descriptor.hasEmptyThreshold] at h
      | multi k keys => simp [Descriptor.hasEmptyThreshold] at h
      | time m => simp [Descriptor.hasEmptyThreshold] at h
      | hash hh => simp [Descriptor.hasEmptyThreshold] at h
      | threshold k subs =>
        cases subs with
        | nil => simp [V.from_descriptor]
        | cons e0 rest =>
          simp [Descriptor.hasEmptyThreshold, DescList.anyEmptyThreshold] at h
          rcases h with h1 | h1
          · simp [V.from_descriptor,
              ihE e0 (p.scale k (DescList.cons e0 rest).lengthD) h1, Bind.bind, Option.bind]
          · cases he : E.from_descriptor n e0 (p.scale k (DescList.cons e0 rest).lengthD) with
            | none => simp [V.from_descriptor, he, Bind.bind, Option.bind]
            | some c =>
              simp [V.from_descriptor, he,
                ihL rest (p.scale k (DescList.cons e0 rest).lengthD) h1, Bind.bind, Option.bind]
      | and l r =>
        simp [Descriptor.hasEmptyThreshold] at h
        rcases h with h1 | h1
        · simp [V.from_descriptor, ihV l p h1, Bind.bind, Option.bind]
        · cases hv : V.from_descriptor n l p with
          | none => simp [V.from_descriptor, hv, Bind.bind, Option.bind]
          | some c => simp [V.from_descriptor, hv, ihV r p h1, Bind.bind, Option.bind]
      | or l r => simp [V.from_descriptor]
      | asymmetricOr l r => simp [V.from_descriptor]
      | wpkh pk => simp [V.from_descriptor]
      | sh d2 => simp [V.from_descriptor]
      | wsh d2 => simp [V.from_descriptor]
    have hT : ∀ (d : Descriptor) (p : Prob), d.hasEmptyThreshold = true →
        T.from_descriptor (n+1) d p = none := by
      intro d p h
      cases d with
      | key pk => simp [Descriptor.hasEmptyThreshold] at h
      | keyHash pk => simp [Descriptor.hasEmptyThreshold] at h
      | multi k keys => simp [Descriptor.hasEmptyThreshold] at h
      | time m => simp [Descriptor.hasEmptyThreshold] at h
      | hash hh => simp [Descriptor.hasEmptyThreshold] at h
      | threshold k subs =>
        simp [T.from_descriptor, ihE (Descriptor.threshold k subs) Prob.one h,
          Bind.bind, Option.bind]
      | and l r =>
        simp [T.from_descriptor, ihE (Descriptor.and l r) Prob.one h, Bind.bind, Option.bind]
      | or l r =>
        simp [T.from_descriptor, ihE (Descriptor.or l r) Prob.one h, Bind.bind, Option.bind]
      | asymmetricOr l r =>
        simp [T.from_descriptor, ihE (Descriptor.asymmetricOr l r) Prob.one h,
          Bind.bind, Option.bind]
      | wpkh pk => simp [T.from_descriptor]
      | sh d2 => simp [T.from_descriptor]
      | wsh d2 => simp [T.from_descriptor]
    exact ⟨hE, hW, hL, hF, hV, hT⟩

/-- C2 (amended). `compile` panics on every descriptor that contains an empty
`Threshold` node — but, as the counterexample shows, not only on those: it
also panics when an `Or`/`AsymmetricOr` must be compiled at type `V` (any
`Or` below an `And`, or as an immediate child of another `Or`), and when a
wrapping form (`Wpkh`/`Sh`/`Wsh`) reaches the compiler. -/
theorem C2_compile_none_of_empty_threshold (d : Descriptor)
    (h : d.hasEmptyThreshold = true) : ParseTree.compile d = none := by
  unfold ParseTree.compile
  rw [(fromDescriptor_none_of_emptyThreshold (8 * d.sizeD + 8)).2.2.2.2.2 d Prob.one h]
  rfl

/-- C2 (witness): the empty threshold itself. -/
theorem C2_compile_none_of_empty_threshold_witness :
    Descriptor.hasEmptyThreshold (.threshold 0 .nil) = true ∧
    ParseTree.compile (.threshold 0 .nil) = none :=
  ⟨by decide, C2_compile_none_of_empty_threshold (.threshold 0 .nil) (by decide)⟩

/-- C3 (counterexample). On `Threshold(1, CheckSig 7, [W::Csv 0])` with no
signatures available at age 0, only the `Csv` child satisfies; the claim
prescribes dissatisfying the remaining `CheckSig` child and emitting in child
order — witness `[[], [1]]` — but the code emits only the chosen
satisfaction, `[[1]]`: `satisfy_threshold` never dissatisfies anything. -/
theorem C3_counterexample :
    E.satisfy (E.threshold 1 (E.checkSig 7) (.cons (W.csv 0) .nil))
      (fun _ => none) (fun _ => none) (fun _ => none) 0 = .ok [[1]] ∧
    ([[1]] : Witness) ≠ [[], [1]] := by
  refine ⟨by decide, by decide⟩

/-- C3 (amended). For `1 ≤ k`, the threshold satisfier attempts each child
independently; with fewer than `k` successes it fails with `CouldNotSatisfy`;
otherwise it emits the concatenation of the `k` cheapest successful child
satisfactions in non-decreasing cost order, stably (ties keep child order) —
and it does not dissatisfy the remaining children. -/
theorem C3_threshold_behavior (k : Nat) (sube : E) (subw : WList) (km : KeyMap)
    (pm : PkhMap) (hm : PreimageMap) (age : Nat) (hk : 1 ≤ k) :
    (((sube.satisfy km pm hm age).toOption.toList ++
        (subw.satisfyEach km pm hm age).filterMap Except.toOption).length < k →
      E.satisfy (E.threshold k sube subw) km pm hm age = .error .couldNotSatisfy) ∧
    (k ≤ ((sube.satisfy km pm hm age).toOption.toList ++
        (subw.satisfyEach km pm hm age).filterMap Except.toOption).length →
      E.satisfy (E.threshold k sube subw) km pm hm age =
        .ok (((((sube.satisfy km pm hm age).toOption.toList ++
            (subw.satisfyEach km pm hm age).filterMap Except.toOption).insertionSort
              (fun a b => satisfy_cost a ≤ satisfy_cost b)).take k).flatten)) := by
  constructor
  · intro hlt
    simp only [E.satisfy]
    unfold satisfy_threshold
    rw [if_neg (show ¬ k = 0 by omega), if_pos hlt]
  · intro hge
    simp only [E.satisfy]
    unfold satisfy_threshold
    rw [if_neg (show ¬ k = 0 by omega),
      if_neg (show ¬ ((sube.satisfy km pm hm age).toOption.toList ++
        (subw.satisfyEach km pm hm age).filterMap Except.toOption).length < k by omega)]
    have hsort :
        ((List.range ((sube.satisfy km pm hm age).toOption.toList ++
            (subw.satisfyEach km pm hm age).filterMap Except.toOption).length).insertionSort
          (fun i j =>
            satisfy_cost (((sube.satisfy km pm hm age).toOption.toList ++
              (subw.satisfyEach km pm hm age).filterMap Except.toOption).getD i []) ≤
            satisfy_cost (((sube.satisfy km pm hm age).toOption.toList ++
              (subw.satisfyEach km pm hm age).filterMap Except.toOption).getD j []))).map
          (fun i => ((sube.satisfy km pm hm age).toOption.toList ++
            (subw.satisfyEach km pm hm age).filterMap Except.toOption).getD i []) =
        ((sube.satisfy km pm hm age).toOption.toList ++
          (subw.satisfyEach km pm hm age).filterMap Except.toOption).insertionSort
            (fun a b => satisfy_cost a ≤ satisfy_cost b) := by
      rw [insertionSort_map
        (fun i => ((sube.satisfy km pm hm age).toOption.toList ++
          (subw.satisfyEach km pm hm age).filterMap Except.toOption).getD i [])
        satisfy_cost]
      rw [map_getD_range]
    simp only [List.map_take, hsort]

/-- C3 (witness): the success branch at a concrete one-of-two threshold. -/
theorem C3_threshold_behavior_witness :
    E.satisfy (E.threshold 1 (E.checkSig 8) (.cons (W.csv 0) .nil))
      (fun _ => none) (fun _ => none) (fun _ => none) 0 = .ok [[1]] := by
  have h := (C3_threshold_behavior 1 (E.checkSig 8) (.cons (W.csv 0) .nil)
    (fun _ => none) (fun _ => none) (fun _ => none) 0 (by decide)).2 (by decide)
  exact h.trans (by decide)

/-- The pubkey-reading loop of the `CheckMultiSig(Verify)` arms consumes
exactly a run of pubkey pushes. -/
theorem parsePubkeys_map (l : List Nat) (rest : List Token) :
    parsePubkeys l.length (l.map Token.pubkey ++ rest) = .ok (l, rest) := by
  induction l with
  | nil => rfl
  | cons a tl ih =>
    simp [List.length_cons, parsePubkeys, ih, Bind.bind, Except.bind]

/-- C5 (counterexample). The claim says serialization reverses the stored key
list; in fact `E::CheckMultiSig` emits the keys in stored (descriptor) order
— the reversal happens only in the parser, which reads the script
right-to-left and reverses once to undo that reading order. -/
theorem C5_counterexample :
    E.serialize (E.checkMultiSig 1 [4, 5]) =
      [Token.number 1, Token.pubkey 4, Token.pubkey 5, Token.number 2,
        Token.checkMultiSig] ∧
    E.serialize (E.checkMultiSig 1 [4, 5]) ≠
      [Token.number 1, Token.pubkey 5, Token.pubkey 4, Token.number 2,
        Token.checkMultiSig] := by
  refine ⟨by decide, by decide⟩

/-- C5 (amended). `CheckMultiSig` stores its keys in descriptor order and
serializes them in that same order; the right-to-left parser collects them
reversed and reverses once, so parsing the serialization restores the node
with its key list intact, for every key list. -/
theorem C5_multisig_order (k : Nat) (pks : List Nat) (fuel : Nat) :
    E.serialize (E.checkMultiSig k pks) =
      [Token.number k] ++ pks.map Token.pubkey ++
        [Token.number pks.length, Token.checkMultiSig] ∧
    parse_subexpression (fuel + 1) ((E.serialize (E.checkMultiSig k pks)).reverse) =
      .ok (SubExpr.e (E.checkMultiSig k pks), []) := by
  refine ⟨rfl, ?_⟩
  have hser : (E.serialize (E.checkMultiSig k pks)).reverse =
      Token.checkMultiSig :: Token.number pks.length ::
        ((pks.map Token.pubkey).reverse ++ [Token.number k]) := by
    show ([Token.number k] ++ pks.map Token.pubkey ++
      [Token.number pks.length, Token.checkMultiSig]).reverse = _
    simp [List.reverse_append]
  rw [hser]
  have hp : parsePubkeys pks.length ((pks.map Token.pubkey).reverse ++ [Token.number k]) =
      .ok (pks.reverse, [Token.number k]) := by
    have h := parsePubkeys_map pks.reverse [Token.number k]
    simpa [List.length_reverse, List.map_reverse] using h
  simp [parse_subexpression, expectNumber, hp, Bind.bind, Except.bind,
    List.reverse_reverse]

/-- C6. For a push of any length other than 20/32/33, `lex` fails with
`InvalidPush(bytes)` exactly when the bytes decode as a script integer
(`read_scriptint` succeeds — at most 4 bytes) that is negative or whose bytes
differ from the minimal encoding of the decoded value (the data bytes of
`Builder::push_int`); pushes that fail to decode surface the decoder error as
`Script(..)`, not `InvalidPush`. -/
theorem C6_lex_invalid_push (bs : List Nat)
    (h20 : bs.length ≠ 20) (h32 : bs.length ≠ 32) (h33 : bs.length ≠ 33) :
    lex [Instruction.pushBytes bs] = .error (.invalidPush bs) ↔
      ∃ v, read_scriptint bs = .ok v ∧ (v < 0 ∨ (push_int v).drop 1 ≠ bs) := by
  have hlex : lex [Instruction.pushBytes bs] =
      (match lex_instruction (.pushBytes bs) with
       | .ok tok => .ok [tok]
       | .error e => .error e) := by
    cases hi : lex_instruction (.pushBytes bs) <;>
      simp [lex, hi, Bind.bind, Except.bind]
  rw [hlex]
  simp only [lex_instruction]
  rw [if_neg h20, if_neg h32, if_neg h33]
  cases hv : read_scriptint bs with
  | error e => simp
  | ok v =>
    by_cases h0 : 0 ≤ v
    · by_cases hmin : (push_int v).tail = bs
      · simp [h0, hmin, List.drop_one]
        try omega
      · simp [h0, hmin, List.drop_one]
    · simp [h0, List.drop_one]
      exact Or.inl (by omega)

/-- C6 (witness): the single byte `0x05` is a valid nonnegative script
integer but not minimally encoded (minimal is `OP_PUSHNUM_5`), so `lex`
rejects it with `InvalidPush`. -/
theorem C6_lex_invalid_push_witness :
    ([5] : List Nat).length ≠ 20 ∧
    (lex [Instruction.pushBytes [5]] = .error (.invalidPush [5]) ↔
      ∃ v, read_scriptint [5] = .ok v ∧ (v < 0 ∨ (push_int v).drop 1 ≠ [5])) ∧
    lex [Instruction.pushBytes [5]] = .error (.invalidPush [5]) :=
  ⟨by decide, C6_lex_invalid_push [5] (by decide) (by decide) (by decide), by decide⟩

/-- C7. For `ParallelOr(l, r)`: with exactly one child satisfied, the
satisfaction of that child is combined with the other child's dissatisfaction
(which must itself succeed — its failure propagates); with both satisfied,
the cheaper of `lsat + rdissat` and `ldissat + rsat` is chosen with ties to
the left; with both failed, the left error is returned. -/
theorem C7_parallel_or (l : E) (r : W) (km : KeyMap) (pm : PkhMap) (hm : PreimageMap)
    (age : Nat) :
    (∀ ls e rd, l.satisfy km pm hm age = .ok ls → r.satisfy km pm hm age = .error e →
      r.dissatisfy pm = .ok rd →
      E.satisfy (E.parallelOr l r) km pm hm age = .ok (ls ++ rd)) ∧
    (∀ e rs ld, l.satisfy km pm hm age = .error e → r.satisfy km pm hm age = .ok rs →
      l.dissatisfy pm = .ok ld →
      E.satisfy (E.parallelOr l r) km pm hm age = .ok (ld ++ rs)) ∧
    (∀ ls rs ld rd, l.satisfy km pm hm age = .ok ls → r.satisfy km pm hm age = .ok rs →
      l.dissatisfy pm = .ok ld → r.dissatisfy pm = .ok rd →
      E.satisfy (E.parallelOr l r) km pm hm age =
        .ok (if satisfy_cost ls + satisfy_cost rd ≤ satisfy_cost rs + satisfy_cost ld
             then ls ++ rd else ld ++ rs)) ∧
    (∀ e e2, l.satisfy km pm hm age = .error e → r.satisfy km pm hm age = .error e2 →
      E.satisfy (E.parallelOr l r) km pm hm age = .error e) := by
  refine ⟨?_, ?_, ?_, ?_⟩
  · intro ls e rd h1 h2 h3
    simp only [E.satisfy]
    rw [h1, h2, h3]
    simp [satisfy_parallel_or, Bind.bind, Except.bind]
  · intro e rs ld h1 h2 h3
    simp only [E.satisfy]
    rw [h1, h2, h3]
    simp [satisfy_parallel_or, Bind.bind, Except.bind]
  · intro ls rs ld rd h1 h2 h3 h4
    simp only [E.satisfy]
    rw [h1, h2, h3, h4]
    simp only [satisfy_parallel_or, Bind.bind, Except.bind]
    split_ifs <;> rfl
  · intro e e2 h1 h2
    simp only [E.satisfy]
    rw [h1, h2]
    rfl

/-- C7 (witness): with only the signature for key 1 available, the left child
of `ParallelOr(CheckSig 1, W::CheckSig 2)` satisfies, the right fails, and the
witness is the left satisfaction followed by the right (empty) dissatisfaction. -/
theorem C7_witness :
    E.satisfy (E.parallelOr (E.checkSig 1) (W.checkSig 2))
      (fun pk => if pk = 1 then some [7] else none) (fun _ => none) (fun _ => none) 0 =
      .ok [[7]] :=
  (C7_parallel_or (E.checkSig 1) (W.checkSig 2)
      (fun pk => if pk = 1 then some [7] else none) (fun _ => none) (fun _ => none) 0).1
    [[7]] (.missingSig 2) [] (by decide) (by decide) (by decide)

/-- C8 (counterexample). At `p = 1/2` (exactly representable, so the `f64`
weights are computed exactly) the two `Multi(8, …)` candidate rules —
`E::CheckMultiSig` listed first, `E::CheckMultiSigF` second — have equal
weight `572`, and `min_cost` keeps the second-listed rule, which is
observable in the output of `ParseTree::compile` on
`Threshold(1, [Multi(8, K₈), Key 100])`; the claim's left-first tie-breaking
would have produced `CheckMultiSig` instead. -/
theorem C8_counterexample :
    (⟨E.checkMultiSig 8 [1,2,3,4,5,6,7,8], 275, 585, 9⟩ : Cost E).weightScaled ⟨1, 2⟩ =
      (⟨E.checkMultiSigF 8 [1,2,3,4,5,6,7,8], 279, 585, 1⟩ : Cost E).weightScaled ⟨1, 2⟩ ∧
    E.from_descriptor 20 (.multi 8 [1,2,3,4,5,6,7,8]) ⟨1, 2⟩ =
      some ⟨E.checkMultiSigF 8 [1,2,3,4,5,6,7,8], 279, 585, 1⟩ ∧
    ParseTree.compile
        (.threshold 1 (.cons (.multi 8 [1,2,3,4,5,6,7,8]) (.cons (.key 100) .nil))) =
      some ⟨T.castE (E.threshold 1 (E.checkMultiSigF 8 [1,2,3,4,5,6,7,8])
        (.cons (W.checkSig 100) .nil))⟩ ∧
    E.checkMultiSig 8 [1,2,3,4,5,6,7,8] ≠ E.checkMultiSigF 8 [1,2,3,4,5,6,7,8] := by
  refine ⟨by decide, by decide, by decide, by decide⟩

/-- C8 (amended). Compilation is a pure function of the descriptor (so two
runs agree), but an equal-weight comparison in `min_cost` keeps the
second/right candidate: `weight_one < weight_two` fails on equality, and the
`else` branch returns `two`. -/
theorem C8_min_cost_tie_right {α : Type} (p : Prob) (one two : Cost α)
    (h : one.weightScaled p = two.weightScaled p) : min_cost one two p id = two := by
  unfold min_cost
  rw [h]
  simp

/-- C8 (witness): the tied `Multi(8, …)` candidates at `p = 1/2`. -/
theorem C8_min_cost_tie_right_witness :
    min_cost (⟨E.checkMultiSig 8 [1,2,3,4,5,6,7,8], 275, 585, 9⟩ : Cost E)
      (⟨E.checkMultiSigF 8 [1,2,3,4,5,6,7,8], 279, 585, 1⟩ : Cost E) ⟨1, 2⟩ id =
      ⟨E.checkMultiSigF 8 [1,2,3,4,5,6,7,8], 279, 585, 1⟩ :=
  C8_min_cost_tie_right ⟨1, 2⟩ _ _ (by decide)

mutual

/-- CSV monotonicity for `E` over Or/Switch-free trees. -/
theorem E.satisfy_monoE : ∀ (x : E), x.noOrSwitch = true →
    ∀ (km : KeyMap) (pm : PkhMap) (hm : PreimageMap) (a1 a2 : Nat), a1 ≤ a2 →
    (∃ w, x.satisfy km pm hm a1 = .ok w) → ∃ w, x.satisfy km pm hm a2 = .ok w
  | .checkSig pk, _, km, pm, hm, a1, a2, _, hok => by
    simpa [E.satisfy] using hok
  | .checkSigHash h0, _, km, pm, hm, a1, a2, _, hok => by
    simpa [E.satisfy] using hok
  | .checkSigHashF h0, _, km, pm, hm, a1, a2, _, hok => by
    simpa [E.satisfy] using hok
  | .checkMultiSig k keys, _, km, pm, hm, a1, a2, _, hok => by
    simpa [E.satisfy] using hok
  | .checkMultiSigF k keys, _, km, pm, hm, a1, a2, _, hok => by
    simpa [E.satisfy] using hok
  | .hashEqual h0, _, km, pm, hm, a1, a2, _, hok => by
    simpa [E.satisfy] using hok
  | .threshold k sube subw, h, km, pm, hm, a1, a2, hage, hok => by
    simp only [E.noOrSwitch, Bool.and_eq_true] at h
    simp only [E.satisfy] at hok ⊢
    rw [satisfy_threshold_exists_ok] at hok ⊢
    rcases hok with h0 | hlen
    · exact Or.inl h0
    · right
      have h1 := toOption_toList_length_mono (E.satisfy_monoE sube h.1 km pm hm a1 a2 hage)
      have h2 := WList.satCount_mono subw h.2 km pm hm a1 a2 hage
      simp only [List.length_append] at hlen ⊢
      omega
  | .parallelAnd l r, h, km, pm, hm, a1, a2, hage, hok => by
    simp only [E.noOrSwitch, Bool.and_eq_true] at h
    simp only [E.satisfy] at hok ⊢
    rw [exists_ok_append] at hok ⊢
    exact ⟨E.satisfy_monoE l h.1 km pm hm a1 a2 hage hok.1,
      W.satisfy_monoW r h.2 km pm hm a1 a2 hage hok.2⟩
  | .cascadeAnd l r, h, km, pm, hm, a1, a2, hage, hok => by
    simp only [E.noOrSwitch, Bool.and_eq_true] at h
    simp only [E.satisfy] at hok ⊢
    rw [exists_ok_append] at hok ⊢
    exact ⟨E.satisfy_monoE l h.1 km pm hm a1 a2 hage hok.1,
      F.satisfy_monoF r h.2 km pm hm a1 a2 hage hok.2⟩
  | .parallelOr l r, h, _, _, _, _, _, _, _ => by simp [E.noOrSwitch] at h
  | .cascadeOr l r, h, _, _, _, _, _, _, _ => by simp [E.noOrSwitch] at h
  | .castF f, h, km, pm, hm, a1, a2, hage, hok => by
    simp only [E.noOrSwitch] at h
    simp only [E.satisfy] at hok ⊢
    rw [exists_ok_push1] at hok ⊢
    exact F.satisfy_monoF f h km pm hm a1 a2 hage hok

/-- CSV monotonicity for `W` over Or/Switch-free trees. -/
theorem W.satisfy_monoW : ∀ (x : W), x.noOrSwitch = true →
    ∀ (km : KeyMap) (pm : PkhMap) (hm : PreimageMap) (a1 a2 : Nat), a1 ≤ a2 →
    (∃ w, x.satisfy km pm hm a1 = .ok w) → ∃ w, x.satisfy km pm hm a2 = .ok w
  | .checkSig pk, _, km, pm, hm, a1, a2, _, hok => by
    simpa [W.satisfy] using hok
  | .hashEqual h0, _, km, pm, hm, a1, a2, _, hok => by
    simpa [W.satisfy] using hok
  | .csv n, _, km, pm, hm, a1, a2, hage, hok => by
    by_cases hn : n ≤ a1
    · have hn2 : n ≤ a2 := le_trans hn hage
      simp [W.satisfy, satisfy_csv, hn2, Except.map]
    · simp [W.satisfy, satisfy_csv, hn, Except.map] at hok
  | .castE e, h, km, pm, hm, a1, a2, hage, hok => by
    simp only [W.noOrSwitch] at h
    simp only [W.satisfy] at hok ⊢
    exact E.satisfy_monoE e h km pm hm a1 a2 hage hok

/-- The number of successful threshold children is monotone in the age. -/
theorem WList.satCount_mono : ∀ (ws : WList), ws.noOrSwitch = true →
    ∀ (km : KeyMap) (pm : PkhMap) (hm : PreimageMap) (a1 a2 : Nat), a1 ≤ a2 →
    ((ws.satisfyEach km pm hm a1).filterMap Except.toOption).length ≤
      ((ws.satisfyEach km pm hm a2).filterMap Except.toOption).length
  | .nil, _, km, pm, hm, a1, a2, _ => by simp [WList.satisfyEach]
  | .cons w tl, h, km, pm, hm, a1, a2, hage => by
    simp only [WList.noOrSwitch, Bool.and_eq_true] at h
    have ihtl := WList.satCount_mono tl h.2 km pm hm a1 a2 hage
    simp only [WList.satisfyEach, List.filterMap_cons]
    cases hw1 : w.satisfy km pm hm a1 with
    | error e =>
      cases hw2 : w.satisfy km pm hm a2 with
      | error e2 => simpa [Except.toOption] using ihtl
      | ok w2 =>
        simp only [Except.toOption, List.length_cons]
        omega
    | ok w1 =>
      obtain ⟨w2, hw2⟩ := W.satisfy_monoW w h.1 km pm hm a1 a2 hage ⟨w1, hw1⟩
      rw [hw2]
      simp only [Except.toOption, List.length_cons]
      omega

/-- CSV monotonicity for `F` over Or/Switch-free trees. -/
theorem F.satisfy_monoF : ∀ (x : F), x.noOrSwitch = true →
    ∀ (km : KeyMap) (pm : PkhMap) (hm : PreimageMap) (a1 a2 : Nat), a1 ≤ a2 →
    (∃ w, x.satisfy km pm hm a1 = .ok w) → ∃ w, x.satisfy km pm hm a2 = .ok w
  | .checkSig pk, _, km, pm, hm, a1, a2, _, hok => by
    simpa [F.satisfy] using hok
  | .checkMultiSig k keys, _, km, pm, hm, a1, a2, _, hok => by
    simpa [F.satisfy] using hok
  | .checkSigHash h0, _, km, pm, hm, a1, a2, _, hok => by
    simpa [F.satisfy] using hok
  | .hashEqual h0, _, km, pm, hm, a1, a2, _, hok => by
    simpa [F.satisfy] using hok
  | .csv n, _, km, pm, hm, a1, a2, hage, hok => by
    by_cases hn : n ≤ a1
    · have hn2 : n ≤ a2 := le_trans hn hage
      simp [F.satisfy, satisfy_csv, hn2]
    · simp [F.satisfy, satisfy_csv, hn] at hok
  | .threshold k sube subw, h, km, pm, hm, a1, a2, hage, hok => by
    simp only [F.noOrSwitch, Bool.and_eq_true] at h
    simp only [F.satisfy] at hok ⊢
    rw [satisfy_threshold_exists_ok] at hok ⊢
    rcases hok with h0 | hlen
    · exact Or.inl h0
    · right
      have h1 := toOption_toList_length_mono (E.satisfy_monoE sube h.1 km pm hm a1 a2 hage)
      have h2 := WList.satCount_mono subw h.2 km pm hm a1 a2 hage
      simp only [List.length_append] at hlen ⊢
      omega
  | .and l r, h, km, pm, hm, a1, a2, hage, hok => by
    simp only [F.noOrSwitch, Bool.and_eq_true] at h
    simp only [F.satisfy] at hok ⊢
    rw [exists_ok_append] at hok ⊢
    exact ⟨V.satisfy_monoV l h.1 km pm hm a1 a2 hage hok.1,
      F.satisfy_monoF r h.2 km pm hm a1 a2 hage hok.2⟩
  | .parallelOr l r, h, _, _, _, _, _, _, _ => by simp [F.noOrSwitch] at h
  | .switchOr l r, h, _, _, _, _, _, _, _ => by simp [F.noOrSwitch] at h
  | .switchOrV l r, h, _, _, _, _, _, _, _ => by simp [F.noOrSwitch] at h
  | .cascadeOr l r, h, _, _, _, _, _, _, _ => by simp [F.noOrSwitch] at h
  | .cascadeOrV l r, h, _, _, _, _, _, _, _ => by simp [F.noOrSwitch] at h

/-- CSV monotonicity for `V` over Or/Switch-free trees. -/
theorem V.satisfy_monoV : ∀ (x : V), x.noOrSwitch = true →
    ∀ (km : KeyMap) (pm : PkhMap) (hm : PreimageMap) (a1 a2 : Nat), a1 ≤ a2 →
    (∃ w, x.satisfy km pm hm a1 = .ok w) → ∃ w, x.satisfy km pm hm a2 = .ok w
  | .checkSig pk, _, km, pm, hm, a1, a2, _, hok => by
    simpa [V.satisfy] using hok
  | .checkMultiSig k keys, _, km, pm, hm, a1, a2, _, hok => by
    simpa [V.satisfy] using hok
  | .checkSigHash h0, _, km, pm, hm, a1, a2, _, hok => by
    simpa [V.satisfy] using hok
  | .hashEqual h0, _, km, pm, hm, a1, a2, _, hok => by
    simpa [V.satisfy] using hok
  | .csv n, _, km, pm, hm, a1, a2, hage, hok => by
    by_cases hn : n ≤ a1
    · have hn2 : n ≤ a2 := le_trans hn hage
      simp [V.satisfy, satisfy_csv, hn2]
    · simp [V.satisfy, satisfy_csv, hn] at hok
  | .threshold k sube subw, h, km, pm, hm, a1, a2, hage, hok => by
    simp only [V.noOrSwitch, Bool.and_eq_true] at h
    simp only [V.satisfy] at hok ⊢
    rw [satisfy_threshold_exists_ok] at hok ⊢
    rcases hok with h0 | hlen
    · exact Or.inl h0
    · right
      have h1 := toOption_toList_length_mono (E.satisfy_monoE sube h.1 km pm hm a1 a2 hage)
      have h2 := WList.satCount_mono subw h.2 km pm hm a1 a2 hage
      simp only [List.length_append] at hlen ⊢
      omega
  | .and l r, h, km, pm, hm, a1, a2, hage, hok => by
    simp only [V.noOrSwitch, Bool.and_eq_true] at h
    simp only [V.satisfy] at hok ⊢
    rw [exists_ok_append] at hok ⊢
    exact ⟨V.satisfy_monoV l h.1 km pm hm a1 a2 hage hok.1,
      V.satisfy_monoV r h.2 km pm hm a1 a2 hage hok.2⟩
  | .parallelOr l r, h, _, _, _, _, _, _, _ => by simp [V.noOrSwitch] at h
  | .switchOr l r, h, _, _, _, _, _, _, _ => by simp [V.noOrSwitch] at h
  | .switchOrT l r, h, _, _, _, _, _, _, _ => by simp [V.noOrSwitch] at h
  | .cascadeOr l r, h, _, _, _, _, _, _, _ => by simp [V.noOrSwitch] at h

/-- CSV monotonicity for `T` over Or/Switch-free trees. -/
theorem T.satisfy_monoT : ∀ (x : T), x.noOrSwitch = true →
    ∀ (km : KeyMap) (pm : PkhMap) (hm : PreimageMap) (a1 a2 : Nat), a1 ≤ a2 →
    (∃ w, x.satisfy km pm hm a1 = .ok w) → ∃ w, x.satisfy km pm hm a2 = .ok w
  | .hashEqual h0, _, km, pm, hm, a1, a2, _, hok => by
    simpa [T.satisfy] using hok
  | .and l r, h, km, pm, hm, a1, a2, hage, hok => by
    simp only [T.noOrSwitch, Bool.and_eq_true] at h
    simp only [T.satisfy] at hok ⊢
    rw [exists_ok_append] at hok ⊢
    exact ⟨V.satisfy_monoV l h.1 km pm hm a1 a2 hage hok.1,
      T.satisfy_monoT r h.2 km pm hm a1 a2 hage hok.2⟩
  | .switchOr l r, h, _, _, _, _, _, _, _ => by simp [T.noOrSwitch] at h
  | .cascadeOr l r, h, _, _, _, _, _, _, _ => by simp [T.noOrSwitch] at h
  | .castE e, h, km, pm, hm, a1, a2, hage, hok => by
    simp only [T.noOrSwitch] at h
    simp only [T.satisfy] at hok ⊢
    exact E.satisfy_monoE e h km pm hm a1 a2 hage hok
  | .castF f, h, km, pm, hm, a1, a2, hage, hok => by
    simp only [T.noOrSwitch] at h
    simp only [T.satisfy] at hok ⊢
    exact F.satisfy_monoF f h km pm hm a1 a2 hage hok

end

/-- C9. CSV monotonicity: on any `ParseTree` free of `Or` and `Switch`
variants (of every type), if `satisfy` succeeds at relative age `a1` then it
succeeds at every age `a2 ≥ a1` — each child's success is monotone in the
age, so a threshold's success count only grows. -/
theorem C9_csv_monotonic (pt : ParseTree) (h : pt.top.noOrSwitch = true)
    (km : KeyMap) (pm : PkhMap) (hm : PreimageMap) (a1 a2 : Nat) (hage : a1 ≤ a2)
    (hok : ∃ w, pt.satisfy km pm hm a1 = .ok w) :
    ∃ w, pt.satisfy km pm hm a2 = .ok w :=
  T.satisfy_monoT pt.top h km pm hm a1 a2 hage hok

/-- C9 (witness): a bare CSV of 5, satisfied at age 5, stays satisfiable at
age 9. -/
theorem C9_csv_monotonic_witness :
    ∃ w, ParseTree.satisfy ⟨T.castF (F.csv 5)⟩ (fun _ => none) (fun _ => none)
      (fun _ => none) 9 = .ok w :=
  C9_csv_monotonic ⟨T.castF (F.csv 5)⟩ (by decide) (fun _ => none) (fun _ => none)
    (fun _ => none) 5 9 (by decide) ⟨[], by decide⟩

theorem satisfy_checksig_congr (pk : Nat) (km km' : KeyMap) (h : km pk = km' pk) :
    satisfy_checksig pk km = satisfy_checksig pk km' := by
  unfold satisfy_checksig
  rw [h]

theorem cms_loop_congr (km km' : KeyMap) (k : Nat) : ∀ (keys : List Nat) (ret : Witness),
    (∀ pk ∈ keys, km pk = km' pk) → cms_loop km k keys ret = cms_loop km' k keys ret
  | [], _, _ => rfl
  | a :: tl, ret, h => by
    have ha := h a (by simp)
    have htl : ∀ pk ∈ tl, km pk = km' pk := fun pk hpk => h pk (by simp [hpk])
    simp only [cms_loop, ha]
    cases km' a with
    | none => exact cms_loop_congr km km' k tl ret htl
    | some sig => exact cms_loop_congr km km' k tl _ htl

theorem satisfy_checkmultisig_congr (k : Nat) (keys : List Nat) (km km' : KeyMap)
    (h : ∀ pk ∈ keys, km pk = km' pk) :
    satisfy_checkmultisig k keys km = satisfy_checkmultisig k keys km' := by
  unfold satisfy_checkmultisig
  rw [cms_loop_congr km km' k keys [] h]

mutual

/-- On `CheckSigHash`-free trees, satisfaction depends on the signature map
only through the keys listed by `required_keys`. -/
theorem E.satisfy_congrE : ∀ (x : E), x.noCheckSigHash = true →
    ∀ (km km' : KeyMap) (pm : PkhMap) (hm : PreimageMap) (age : Nat),
    (∀ pk ∈ x.required_keys, km pk = km' pk) →
    x.satisfy km pm hm age = x.satisfy km' pm hm age
  | .checkSig pk, _, km, km', pm, hm, age, hagree => by
    simp only [E.satisfy]
    exact satisfy_checksig_congr pk km km' (hagree pk (by simp [E.required_keys]))
  | .checkSigHash h0, h, _, _, _, _, _, _ => by simp [E.noCheckSigHash] at h
  | .checkSigHashF h0, h, _, _, _, _, _, _ => by simp [E.noCheckSigHash] at h
  | .checkMultiSig k keys, _, km, km', pm, hm, age, hagree => by
    simp only [E.satisfy]
    exact satisfy_checkmultisig_congr k keys km km'
      (fun pk hpk => hagree pk (by simpa [E.required_keys] using hpk))
  | .checkMultiSigF k keys, _, km, km', pm, hm, age, hagree => by
    simp only [E.satisfy]
    exact satisfy_checkmultisig_congr k keys km km'
      (fun pk hpk => hagree pk (by simpa [E.required_keys] using hpk))
  | .hashEqual h0, _, km, km', pm, hm, age, _ => rfl
  | .threshold k sube subw, h, km, km', pm, hm, age, hagree => by
    simp only [E.noCheckSigHash, Bool.and_eq_true] at h
    simp only [E.satisfy]
    rw [E.satisfy_congrE sube h.1 km km' pm hm age
        (fun pk hpk => hagree pk
          (by simp only [E.required_keys, List.mem_append]; exact Or.inl hpk)),
      WList.satisfyEach_congr subw h.2 km km' pm hm age
        (fun pk hpk => hagree pk
          (by simp only [E.required_keys, List.mem_append]; exact Or.inr hpk))]
  | .parallelAnd l r, h, km, km', pm, hm, age, hagree => by
    simp only [E.noCheckSigHash, Bool.and_eq_true] at h
    simp only [E.satisfy]
    rw [E.satisfy_congrE l h.1 km km' pm hm age
        (fun pk hpk => hagree pk
          (by simp only [E.required_keys, List.mem_append]; exact Or.inl hpk)),
      W.satisfy_congrW r h.2 km km' pm hm age
        (fun pk hpk => hagree pk
          (by simp only [E.required_keys, List.mem_append]; exact Or.inr hpk))]
  | .cascadeAnd l r, h, km, km', pm, hm, age, hagree => by
    simp only [E.noCheckSigHash, Bool.and_eq_true] at h
    simp only [E.satisfy]
    rw [E.satisfy_congrE l h.1 km km' pm hm age
        (fun pk hpk => hagree pk
          (by simp only [E.required_keys, List.mem_append]; exact Or.inl hpk)),
      F.satisfy_congrF r h.2 km km' pm hm age
        (fun pk hpk => hagree pk
          (by simp only [E.required_keys, List.mem_append]; exact Or.inr hpk))]
  | .parallelOr l r, h, km, km', pm, hm, age, hagree => by
    simp only [E.noCheckSigHash, Bool.and_eq_true] at h
    simp only [E.satisfy]
    rw [E.satisfy_congrE l h.1 km km' pm hm age
        (fun pk hpk => hagree pk
          (by simp only [E.required_keys, List.mem_append]; exact Or.inl hpk)),
      W.satisfy_congrW r h.2 km km' pm hm age
        (fun pk hpk => hagree pk
          (by simp only [E.required_keys, List.mem_append]; exact Or.inr hpk))]
  | .cascadeOr l r, h, km, km', pm, hm, age, hagree => by
    simp only [E.noCheckSigHash, Bool.and_eq_true] at h
    simp only [E.satisfy]
    rw [E.satisfy_congrE l h.1 km km' pm hm age
        (fun pk hpk => hagree pk
          (by simp only [E.required_keys, List.mem_append]; exact Or.inl hpk)),
      E.satisfy_congrE r h.2 km km' pm hm age
        (fun pk hpk => hagree pk
          (by simp only [E.required_keys, List.mem_append]; exact Or.inr hpk))]
  | .castF f, h, km, km', pm, hm, age, hagree => by
    simp only [E.noCheckSigHash] at h
    simp only [E.satisfy]
    rw [F.satisfy_congrF f h km km' pm hm age
      (fun pk hpk => hagree pk (by simpa [E.required_keys] using hpk))]

theorem W.satisfy_congrW : ∀ (x : W), x.noCheckSigHash = true →
    ∀ (km km' : KeyMap) (pm : PkhMap) (hm : PreimageMap) (age : Nat),
    (∀ pk ∈ x.required_keys, km pk = km' pk) →
    x.satisfy km pm hm age = x.satisfy km' pm hm age
  | .checkSig pk, _, km, km', pm, hm, age, hagree => by
    simp only [W.satisfy]
    exact satisfy_checksig_congr pk km km' (hagree pk (by simp [W.required_keys]))
  | .hashEqual h0, _, km, km', pm, hm, age, _ => rfl
  | .csv n, _, km, km', pm, hm, age, _ => rfl
  | .castE e, h, km, km', pm, hm, age, hagree => by
    simp only [W.noCheckSigHash] at h
    simp only [W.satisfy]
    rw [E.satisfy_congrE e h km km' pm hm age
      (fun pk hpk => hagree pk (by simpa [W.required_keys] using hpk))]

theorem WList.satisfyEach_congr : ∀ (ws : WList), ws.noCheckSigHash = true →
    ∀ (km km' : KeyMap) (pm : PkhMap) (hm : PreimageMap) (age : Nat),
    (∀ pk ∈ ws.requiredKeysAll, km pk = km' pk) →
    ws.satisfyEach km pm hm age = ws.satisfyEach km' pm hm age
  | .nil, _, _, _, _, _, _, _ => rfl
  | .cons w tl, h, km, km', pm, hm, age, hagree => by
    simp only [WList.noCheckSigHash, Bool.and_eq_true] at h
    simp only [WList.satisfyEach]
    rw [W.satisfy_congrW w h.1 km km' pm hm age
        (fun pk hpk => hagree pk
          (by simp only [WList.requiredKeysAll, List.mem_append]; exact Or.inl hpk)),
      WList.satisfyEach_congr tl h.2 km km' pm hm age
        (fun pk hpk => hagree pk
          (by simp only [WList.requiredKeysAll, List.mem_append]; exact Or.inr hpk))]

theorem F.satisfy_congrF : ∀ (x : F), x.noCheckSigHash = true →
    ∀ (km km' : KeyMap) (pm : PkhMap) (hm : PreimageMap) (age : Nat),
    (∀ pk ∈ x.required_keys, km pk = km' pk) →
    x.satisfy km pm hm age = x.satisfy km' pm hm age
  | .checkSig pk, _, km, km', pm, hm, age, hagree => by
    simp only [F.satisfy]
    exact satisfy_checksig_congr pk km km' (hagree pk (by simp [F.required_keys]))
  | .checkMultiSig k keys, _, km, km', pm, hm, age, hagree => by
    simp only [F.satisfy]
    exact satisfy_checkmultisig_congr k keys km km'
      (fun pk hpk => hagree pk (by simpa [F.required_keys] using hpk))
  | .checkSigHash h0, h, _, _, _, _, _, _ => by simp [F.noCheckSigHash] at h
  | .csv n, _, km, km', pm, hm, age, _ => rfl
  | .hashEqual h0, _, km, km', pm, hm, age, _ => rfl
  | .threshold k sube subw, h, km, km', pm, hm, age, hagree => by
    simp only [F.noCheckSigHash, Bool.and_eq_true] at h
    simp only [F.satisfy]
    rw [E.satisfy_congrE sube h.1 km km' pm hm age
        (fun pk hpk => hagree pk
          (by simp only [F.required_keys, List.mem_append]; exact Or.inl hpk)),
      WList.satisfyEach_congr subw h.2 km km' pm hm age
        (fun pk hpk => hagree pk
          (by simp only [F.required_keys, List.mem_append]; exact Or.inr hpk))]
  | .and l r, h, km, km', pm, hm, age, hagree => by
    simp only [F.noCheckSigHash, Bool.and_eq_true] at h
    simp only [F.satisfy]
    rw [V.satisfy_congrV l h.1 km km' pm hm age
        (fun pk hpk => hagree pk
          (by simp only [F.required_keys, List.mem_append]; exact Or.inl hpk)),
      F.satisfy_congrF r h.2 km km' pm hm age
        (fun pk hpk => hagree pk
          (by simp only [F.required_keys, List.mem_append]; exact Or.inr hpk))]
  | .parallelOr l r, h, km, km', pm, hm, age, hagree => by
    simp only [F.noCheckSigHash, Bool.and_eq_true] at h
    simp only [F.satisfy]
    rw [E.satisfy_congrE l h.1 km km' pm hm age
        (fun pk hpk => hagree pk
          (by simp only [F.required_keys, List.mem_append]; exact Or.inl hpk)),
      W.satisfy_congrW r h.2 km km' pm hm age
        (fun pk hpk => hagree pk
          (by simp only [F.required_keys, List.mem_append]; exact Or.inr hpk))]
  | .switchOr l r, h, km, km', pm, hm, age, hagree => by
    simp only [F.noCheckSigHash, Bool.and_eq_true] at h
    simp only [F.satisfy]
    rw [F.satisfy_congrF l h.1 km km' pm hm age
        (fun pk hpk => hagree pk
          (by simp only [F.required_keys, List.mem_append]; exact Or.inl hpk)),
      F.satisfy_congrF r h.2 km km' pm hm age
        (fun pk hpk => hagree pk
          (by simp only [F.required_keys, List.mem_append]; exact Or.inr hpk))]
  | .switchOrV l r, h, km, km', pm, hm, age, hagree => by
    simp only [F.noCheckSigHash, Bool.and_eq_true] at h
    simp only [F.satisfy]
    rw [V.satisfy_congrV l h.1 km km' pm hm age
        (fun pk hpk => hagree pk
          (by simp only [F.required_keys, List.mem_append]; exact Or.inl hpk)),
      V.satisfy_congrV r h.2 km km' pm hm age
        (fun pk hpk => hagree pk
          (by simp only [F.required_keys, List.mem_append]; exact Or.inr hpk))]
  | .cascadeOr l r, h, km, km', pm, hm, age, hagree => by
    simp only [F.noCheckSigHash, Bool.and_eq_true] at h
    simp only [F.satisfy]
    rw [E.satisfy_congrE l h.1 km km' pm hm age
        (fun pk hpk => hagree pk
          (by simp only [F.required_keys, List.mem_append]; exact Or.inl hpk)),
      F.satisfy_congrF r h.2 km km' pm hm age
        (fun pk hpk => hagree pk
          (by simp only [F.required_keys, List.mem_append]; exact Or.inr hpk))]
  | .cascadeOrV l r, h, km, km', pm, hm, age, hagree => by
    simp only [F.noCheckSigHash, Bool.and_eq_true] at h
    simp only [F.satisfy]
    rw [E.satisfy_congrE l h.1 km km' pm hm age
        (fun pk hpk => hagree pk
          (by simp only [F.required_keys, List.mem_append]; exact Or.inl hpk)),
      V.satisfy_congrV r h.2 km km' pm hm age
        (fun pk hpk => hagree pk
          (by simp only [F.required_keys, List.mem_append]; exact Or.inr hpk))]

theorem V.satisfy_congrV : ∀ (x : V), x.noCheckSigHash = true →
    ∀ (km km' : KeyMap) (pm : PkhMap) (hm : PreimageMap) (age : Nat),
    (∀ pk ∈ x.required_keys, km pk = km' pk) →
    x.satisfy km pm hm age = x.satisfy km' pm hm age
  | .checkSig pk, _, km, km', pm, hm, age, hagree => by
    simp only [V.satisfy]
    exact satisfy_checksig_congr pk km km' (hagree pk (by simp [V.required_keys]))
  | .checkMultiSig k keys, _, km, km', pm, hm, age, hagree => by
    simp only [V.satisfy]
    exact satisfy_checkmultisig_congr k keys km km'
      (fun pk hpk => hagree pk (by simpa [V.required_keys] using hpk))
  | .checkSigHash h0, h, _, _, _, _, _, _ => by simp [V.noCheckSigHash] at h
  | .csv n, _, km, km', pm, hm, age, _ => rfl
  | .hashEqual h0, _, km, km', pm, hm, age, _ => rfl
  | .threshold k sube subw, h, km, km', pm, hm, age, hagree => by
    simp only [V.noCheckSigHash, Bool.and_eq_true] at h
    simp only [V.satisfy]
    rw [E.satisfy_congrE sube h.1 km km' pm hm age
        (fun pk hpk => hagree pk
          (by simp only [V.required_keys, List.mem_append]; exact Or.inl hpk)),
      WList.satisfyEach_congr subw h.2 km km' pm hm age
        (fun pk hpk => hagree pk
          (by simp only [V.required_keys, List.mem_append]; exact Or.inr hpk))]
  | .and l r, h, km, km', pm, hm, age, hagree => by
    simp only [V.noCheckSigHash, Bool.and_eq_true] at h
    simp only [V.satisfy]
    rw [V.satisfy_congrV l h.1 km km' pm hm age
        (fun pk hpk => hagree pk
          (by simp only [V.required_keys, List.mem_append]; exact Or.inl hpk)),
      V.satisfy_congrV r h.2 km km' pm hm age
        (fun pk hpk => hagree pk
          (by simp only [V.required_keys, List.mem_append]; exact Or.inr hpk))]
  | .parallelOr l r, h, km, km', pm, hm, age, hagree => by
    simp only [V.noCheckSigHash, Bool.and_eq_true] at h
    simp only [V.satisfy]
    rw [E.satisfy_congrE l h.1 km km' pm hm age
        (fun pk hpk => hagree pk
          (by simp only [V.required_keys, List.mem_append]; exact Or.inl hpk)),
      W.satisfy_congrW r h.2 km km' pm hm age
        (fun pk hpk => hagree pk
          (by simp only [V.required_keys, List.mem_append]; exact Or.inr hpk))]
  | .switchOr l r, h, km, km', pm, hm, age, hagree => by
    simp only [V.noCheckSigHash, Bool.and_eq_true] at h
    simp only [V.satisfy]
    rw [V.satisfy_congrV l h.1 km km' pm hm age
        (fun pk hpk => hagree pk
          (by simp only [V.required_keys, List.mem_append]; exact Or.inl hpk)),
      V.satisfy_congrV r h.2 km km' pm hm age
        (fun pk hpk => hagree pk
          (by simp only [V.required_keys, List.mem_append]; exact Or.inr hpk))]
  | .switchOrT l r, h, km, km', pm, hm, age, hagree => by
    simp only [V.noCheckSigHash, Bool.and_eq_true] at h
    simp only [V.satisfy]
    rw [T.satisfy_congrT l h.1 km km' pm hm age
        (fun pk hpk => hagree pk
          (by simp only [V.required_keys, List.mem_append]; exact Or.inl hpk)),
      T.satisfy_congrT r h.2 km km' pm hm age
        (fun pk hpk => hagree pk
          (by simp only [V.required_keys, List.mem_append]; exact Or.inr hpk))]
  | .cascadeOr l r, h, km, km', pm, hm, age, hagree => by
    simp only [V.noCheckSigHash, Bool.and_eq_true] at h
    simp only [V.satisfy]
    rw [E.satisfy_congrE l h.1 km km' pm hm age
        (fun pk hpk => hagree pk
          (by simp only [V.required_keys, List.mem_append]; exact Or.inl hpk)),
      V.satisfy_congrV r h.2 km km' pm hm age
        (fun pk hpk => hagree pk
          (by simp only [V.required_keys, List.mem_append]; exact Or.inr hpk))]

theorem T.satisfy_congrT : ∀ (x : T), x.noCheckSigHash = true →
    ∀ (km km' : KeyMap) (pm : PkhMap) (hm : PreimageMap) (age : Nat),
    (∀ pk ∈ x.required_keys, km pk = km' pk) →
    x.satisfy km pm hm age = x.satisfy km' pm hm age
  | .hashEqual h0, _, km, km', pm, hm, age, _ => rfl
  | .and l r, h, km, km', pm, hm, age, hagree => by
    simp only [T.noCheckSigHash, Bool.and_eq_true] at h
    simp only [T.satisfy]
    rw [V.satisfy_congrV l h.1 km km' pm hm age
        (fun pk hpk => hagree pk
          (by simp only [T.required_keys, List.mem_append]; exact Or.inl hpk)),
      T.satisfy_congrT r h.2 km km' pm hm age
        (fun pk hpk => hagree pk
          (by simp only [T.required_keys, List.mem_append]; exact Or.inr hpk))]
  | .switchOr l r, h, km, km', pm, hm, age, hagree => by
    simp only [T.noCheckSigHash, Bool.and_eq_true] at h
    simp only [T.satisfy]
    rw [T.satisfy_congrT l h.1 km km' pm hm age
        (fun pk hpk => hagree pk
          (by simp only [T.required_keys, List.mem_append]; exact Or.inl hpk)),
      T.satisfy_congrT r h.2 km km' pm hm age
        (fun pk hpk => hagree pk
          (by simp only [T.required_keys, List.mem_append]; exact Or.inr hpk))]
  | .cascadeOr l r, h, km, km', pm, hm, age, hagree => by
    simp only [T.noCheckSigHash, Bool.and_eq_true] at h
    simp only [T.satisfy]
    rw [E.satisfy_congrE l h.1 km km' pm hm age
        (fun pk hpk => hagree pk
          (by simp only [T.required_keys, List.mem_append]; exact Or.inl hpk)),
      T.satisfy_congrT r h.2 km km' pm hm age
        (fun pk hpk => hagree pk
          (by simp only [T.required_keys, List.mem_append]; exact Or.inr hpk))]
  | .castE e, h, km, km', pm, hm, age, hagree => by
    simp only [T.noCheckSigHash] at h
    simp only [T.satisfy]
    rw [E.satisfy_congrE e h km km' pm hm age
      (fun pk hpk => hagree pk (by simpa [T.required_keys] using hpk))]
  | .castF f, h, km, km', pm, hm, age, hagree => by
    simp only [T.noCheckSigHash] at h
    simp only [T.satisfy]
    rw [F.satisfy_congrF f h km km' pm hm age
      (fun pk hpk => hagree pk (by simpa [T.required_keys] using hpk))]

end

/-- C4 (counterexample). `required_keys` misses keys consulted through
`CheckSigHash`: at `CheckSigHash h` with `pkhs(h) = 5` and a signature for
key 5 available, the witness contains that signature — and removing key 5's
map entry flips the result to `MissingSig 5`, so the key really is consulted
— yet `required_keys` returns `[]`. -/
theorem C4_counterexample :
    ParseTree.satisfy ⟨T.castE (E.checkSigHash 9)⟩
      (fun pk => if pk = 5 then some [7, 7] else none)
      (fun h => if h = 9 then some 5 else none) (fun _ => none) 0 =
      .ok [[7, 7], pk_serialize 5] ∧
    ParseTree.required_keys ⟨T.castE (E.checkSigHash 9)⟩ = [] ∧
    ParseTree.satisfy ⟨T.castE (E.checkSigHash 9)⟩ (fun _ => none)
      (fun h => if h = 9 then some 5 else none) (fun _ => none) 0 =
      .error (.missingSig 5) := by
  refine ⟨by decide, by decide, by decide⟩

/-- C4 (amended). On `CheckSigHash`-free `ParseTree`s, `required_keys` is
complete: the satisfier's result is unchanged by any modification of the
signature map outside `required_keys`, i.e. no other key's signature is ever
consulted.  (With `CheckSigHash` nodes, keys resolved through the `pkhs` map
are consulted but not listed, per the counterexample.) -/
theorem C4_required_keys_complete (pt : ParseTree) (h : pt.top.noCheckSigHash = true)
    (km km' : KeyMap) (hagree : ∀ pk ∈ pt.top.required_keys, km pk = km' pk)
    (pm : PkhMap) (hm : PreimageMap) (age : Nat) :
    pt.satisfy km pm hm age = pt.satisfy km' pm hm age :=
  T.satisfy_congrT pt.top h km km' pm hm age hagree

/-- C4 (witness): restricting the key map of `CheckSig 3` to its required key
does not change satisfaction. -/
theorem C4_required_keys_complete_witness :
    ParseTree.satisfy ⟨T.castE (E.checkSig 3)⟩
      (fun pk => if pk = 3 then some [9] else none) (fun _ => none) (fun _ => none) 0 =
    ParseTree.satisfy ⟨T.castE (E.checkSig 3)⟩
      (fun pk => if pk = 3 then some [9] else some [8]) (fun _ => none) (fun _ => none) 0 :=
  C4_required_keys_complete ⟨T.castE (E.checkSig 3)⟩ (by decide)
    (fun pk => if pk = 3 then some [9] else none)
    (fun pk => if pk = 3 then some [9] else some [8]) (by decide)
    (fun _ => none) (fun _ => none) 0

/-- C10. A `Threshold` node with `k = 0` (at any of the types E/F/V carrying
thresholds) satisfies with a completely empty witness, for **all** maps and
ages and without consulting any child — `satisfy_threshold` returns `Ok(vec![])`
before attempting anything; and the parser can build such a node from a
script (`0 0 CHECKMULTISIG 0 EQUAL`), despite the documented bound `1 ≤ k`. -/
theorem C10_zero_threshold :
    (∀ (sube : E) (subw : WList) (km : KeyMap) (pm : PkhMap) (hm : PreimageMap)
      (age : Nat), E.satisfy (E.threshold 0 sube subw) km pm hm age = .ok []) ∧
    (∀ (sube : E) (subw : WList) (km : KeyMap) (pm : PkhMap) (hm : PreimageMap)
      (age : Nat), F.satisfy (F.threshold 0 sube subw) km pm hm age = .ok []) ∧
    (∀ (sube : E) (subw : WList) (km : KeyMap) (pm : PkhMap) (hm : PreimageMap)
      (age : Nat), V.satisfy (V.threshold 0 sube subw) km pm hm age = .ok []) ∧
    ParseTree.parse [Token.number 0, Token.number 0, Token.checkMultiSig,
        Token.number 0, Token.equal] =
      .ok ⟨T.castE (E.threshold 0 (E.checkMultiSig 0 []) .nil)⟩ := by
  refine ⟨?_, ?_, ?_, by decide⟩ <;>
    · intros
      simp [E.satisfy, F.satisfy, V.satisfy, satisfy_threshold]

end Miniscript
